import Mathlib

/-!
Verification of the selection-enumeration engine of the network
authentication negotiation helper (Source/na.c).

The embedding models CoreFoundation strings as Lean `String`s, the
selection list as a Lean list, and each guesser as the ordered list of
`addSelection` invocations it performs.  External collaborators
(Kerberos provider, certificate store, preferences store, NTLM
provider, OS login name) are modelled as an `Env` record of oracle
answers, exactly at the interface the source consumes.
-/

/-! ### String helpers (CoreFoundation string operations) -/

/-- Model of `CFStringHasPrefix`: `listStarts p s` is true when `p` is an
initial segment of `s`. -/
def listStarts : List Char → List Char → Bool
  | [], _ => true
  | _ :: _, [] => false
  | p :: ps, s :: ss => p == s && listStarts ps ss

/-- The string `s` begins with `p` (CFStringHasPrefix(s, p)). -/
def strStarts (s p : String) : Bool := listStarts p.toList s.toList

/-- The string `s` ends with `p` (CFStringHasSuffix(s, p)). -/
def strEnds (s p : String) : Bool := listStarts p.toList.reverse s.toList.reverse

/-- Substring occurrence: `hasSub pat s` is true when `pat` occurs inside `s`
(CFStringFind returning a location other than kCFNotFound). -/
def hasSub : List Char → List Char → Bool
  | pat, [] => pat.isEmpty
  | pat, c :: cs => listStarts pat (c :: cs) || hasSub pat cs

/-- The string `s` contains `pat` as a substring. -/
def strContains (s pat : String) : Bool := hasSub pat.toList s.toList

/-- The string contains the character `ch`. -/
def hasChar (s : String) (ch : Char) : Bool := s.toList.contains ch

/-- Substring before the first occurrence of `ch`
(CFStringCreateWithSubstring with range `[0, location)`). -/
def beforeFirst (s : String) (ch : Char) : String :=
  String.mk (s.toList.takeWhile (fun c => c != ch))

/-- Substring after the first occurrence of `ch`
(CFStringCreateWithSubstring with range `(location, end]`). -/
def afterFirst (s : String) (ch : Char) : String :=
  String.mk ((s.toList.dropWhile (fun c => c != ch)).drop 1)

/-- ASCII lower-casing of a character code, used to model
`CFStringCompare(..., kCFCompareCaseInsensitive)`. -/
def lowNat (n : Nat) : Nat := if 65 ≤ n && n ≤ 90 then n + 32 else n

/-- Case-insensitive string equality
(`CFStringCompare(a, b, kCFCompareCaseInsensitive) == kCFCompareEqualTo`),
modelled for ASCII. -/
def ciEq (a b : String) : Bool :=
  a.toList.map (fun c => lowNat c.toNat) == b.toList.map (fun c => lowNat c.toNat)

/-- ASCII upper-casing of one character, modelling `CFStringUppercase`. -/
def upChar (c : Char) : Char :=
  if 97 ≤ c.toNat && c.toNat ≤ 122 then Char.ofNat (c.toNat - 32) else c

/-- ASCII upper-casing of a string, modelling `CFStringUppercase`. -/
def strUpper (s : String) : String := String.mk (s.toList.map upChar)

/-- Model of `CFStringTrim(hostname, CFSTR("."))`: removes leading and
trailing dots. -/
def trimDots (s : String) : String :=
  String.mk (((s.toList.dropWhile (fun c => c == '.')).reverse.dropWhile
      (fun c => c == '.')).reverse)

/-! ### Data model: mechanisms, name types, selections (na.c lines 61-121) -/

/-- The mechanism tag, `enum NAHMechType` (na.c line 61). -/
inductive NAHMechType
  | NO_MECH
  | GSS_KERBEROS
  | GSS_KERBEROS_U2U
  | GSS_KERBEROS_IAKERB
  | GSS_KERBEROS_PKU2U
  | GSS_NTLM
deriving DecidableEq, Repr

/-- Client/server name-type constants `kNAHNT*` (na.c lines 408-412). -/
inductive NameType
  | NTUsername
  | NTServiceBasedName
  | NTKRB5PrincipalReferral
  | NTKRB5Principal
  | NTUUID
deriving DecidableEq, Repr

/-- A client certificate, described by the answers the external
certificate store and hx509 give about it: the SHA-1 fingerprint of its
DER data as 40 uppercase hex digits (computed by `classic_lkdc`, na.c
lines 603-623, via CommonCrypto, modelled as an oracle field), the
mapped Kerberos principal (`_CSCopyKerberosPrincipalForCertificate`) and
the AppleID attribute (`hx509_cert_get_appleid`). -/
structure Cert where
  sha1hex : String
  kerberosPrincipal : Option String
  appleID : Option String
deriving DecidableEq, Repr

/-- A Kerberos credential cache as seen through the provider interface
(`krb5_cc_get_principal`, `krb5_principal_is_lkdc`,
`krb5_principal_get_realm`, `krb5_cc_get_config`): the client principal
(if readable) with its unparsed form, realm and LKDC-ness, plus the
`lkdc-hostname` and `FriendlyName` config strings. -/
structure KPrincipal where
  unparsed : String
  realm : String
  isLkdc : Bool
deriving DecidableEq, Repr

/-- A credential cache in the cache collection. -/
structure CCache where
  principal : Option KPrincipal
  lkdcHostname : Option String
  friendlyName : Option String
deriving DecidableEq, Repr

/-- One element of the selection list, `struct NAHSelectionData`
(na.c lines 70-90).  `hasWait` models `wait != NULL`: a completion latch
installed because the server was unresolved at insertion. -/
structure Selection where
  mech : NAHMechType
  client : String
  clienttype : NameType
  server : Option String
  servertype : NameType
  spnego : Bool
  certificate : Option Cert
  ccache : Option CCache
  have_cred : Bool
  inferredLabel : Option String
  hasWait : Bool
deriving DecidableEq, Repr

/-! ### addSelection (na.c lines 422-502) -/

/-- Flag bit `USE_SPNEGO` (na.c line 423). -/
def USE_SPNEGO : Nat := 1

/-- Flag bit `FORCE_ADD` (na.c line 424). -/
def FORCE_ADD : Nat := 2

/-- Bitmask test `flags & bit`. -/
def flagSet (flags bit : Nat) : Bool := (flags &&& bit) != 0

/-- Post-insertion action a guesser performs on the selection returned by
`addSelection` (the mutations at na.c lines 879-891, 961-964, 644-648 and
1204-1206). `attachCertIfNew` is `classic_lkdc`, which skips the action on
a duplicate; `attachCert` is `wellknown_lkdc`, which attaches even to a
duplicate. -/
inductive PostAdd
  | pnone
  | bindCache (cc : CCache)
  | markHaveCred
  | attachCert (cert : Cert)
  | attachCertIfNew (cert : Cert)
deriving DecidableEq, Repr

/-- One invocation of `addSelection`: its arguments (`clienttype` and
`servertype` are `Option` because callers may pass NULL, defaulted at
na.c lines 441-445) together with the caller's post-insertion action. -/
structure AddCall where
  client : String
  clienttype : Option NameType
  server : Option String
  servertype : Option NameType
  mech : NAHMechType
  flags : Nat
  post : PostAdd
deriving DecidableEq, Repr

/-- The duplicate test of the scan at na.c lines 458-471: same mechanism,
same client (case-sensitive), same server when both are present, same
server-name-type. -/
def dupKey (s : Selection) (mech : NAHMechType) (client : String)
    (server : Option String) (stype : NameType) : Bool :=
  s.mech == mech && s.client == client &&
  (match s.server, server with
   | some a, some b => a == b
   | _, _ => true) &&
  s.servertype == stype

/-- Index of the first record matching the predicate (the scan loop at
na.c line 458). -/
def findDupIdx (p : Selection → Bool) : List Selection → Option Nat
  | [] => none
  | s :: rest => if p s then some 0 else (findDupIdx p rest).map (fun i => i + 1)

/-- Result of `addSelection`: `filtered` is the matching-filter no-op
(returns NULL, na.c lines 454-455), `dup i` returns the existing record at
index `i` and reports `*duplicate = 1`, `added i` appends a fresh record
at index `i`. -/
inductive AddOutcome
  | filtered
  | dup (idx : Nat)
  | added (idx : Nat)
deriving DecidableEq, Repr

/-- The `matching` test of `addSelection` (na.c line 447):
`(flags & FORCE_ADD) || (specificname == NULL) ||
CFStringHasPrefix(client, specificname)`. -/
def matchingOK (spec : Option String) (c : AddCall) : Bool :=
  flagSet c.flags FORCE_ADD ||
  (match spec with
   | none => true
   | some sn => strStarts c.client sn)

/-- The duplicate test applied to each existing record during the scan,
with the server-name-type already defaulted (na.c lines 444-445). -/
def dupPred (c : AddCall) (s : Selection) : Bool :=
  dupKey s c.mech c.client c.server (c.servertype.getD NameType.NTServiceBasedName)

/-- The fresh record `addSelection` appends (na.c lines 475-497): client
and server retained, name types defaulted, SPNEGO flag from `flags`, a
completion latch installed exactly when the server is NULL, all other
fields zeroed. -/
def mkNewSel (c : AddCall) : Selection :=
  { mech := c.mech
    client := c.client
    clienttype := c.clienttype.getD NameType.NTUsername
    server := c.server
    servertype := c.servertype.getD NameType.NTServiceBasedName
    spnego := flagSet c.flags USE_SPNEGO
    certificate := none
    ccache := none
    have_cred := false
    inferredLabel := none
    hasWait := c.server.isNone }

/-- `addSelection` (na.c lines 427-502) as a function of the session's
specific-name and the current selection list.  Allocation failure paths
are not modelled (the model is total). -/
def addSelection (spec : Option String) (sels : List Selection) (c : AddCall) :
    AddOutcome × List Selection :=
  if matchingOK spec c = false then (AddOutcome.filtered, sels)
  else
    match findDupIdx (dupPred c) sels with
    | some i => (AddOutcome.dup i, sels)
    | none => (AddOutcome.added sels.length, sels ++ [mkNewSel c])

/-- Replace the record at index `i` by `f` applied to it (mutation of a
record shared with the array). -/
def updateAt (l : List Selection) (i : Nat) (f : Selection → Selection) :
    List Selection :=
  match l.get? i with
  | some s => l.set i (f s)
  | none => l

/-- The cache-binding mutation of `use_existing_principals`
(na.c lines 879-891): only when the record has no cache yet. -/
def bindCacheFn (cc : CCache) (s : Selection) : Selection :=
  if s.ccache.isNone then
    { s with ccache := some cc, have_cred := true,
             inferredLabel :=
               match s.inferredLabel with
               | some l => some l
               | none => cc.friendlyName }
  else s

/-- One `addSelection` call followed by the caller's post-insertion
action on the returned record. -/
def runStep (spec : Option String) (sels : List Selection) (c : AddCall) :
    List Selection :=
  match addSelection spec sels c with
  | (AddOutcome.filtered, sels') => sels'
  | (AddOutcome.dup i, sels') =>
    match c.post with
    | PostAdd.pnone => sels'
    | PostAdd.bindCache cc => updateAt sels' i (bindCacheFn cc)
    | PostAdd.markHaveCred => updateAt sels' i (fun s => { s with have_cred := true })
    | PostAdd.attachCert cert => updateAt sels' i (fun s => { s with certificate := some cert })
    | PostAdd.attachCertIfNew _ => sels'
  | (AddOutcome.added i, sels') =>
    match c.post with
    | PostAdd.pnone => sels'
    | PostAdd.bindCache cc => updateAt sels' i (bindCacheFn cc)
    | PostAdd.markHaveCred => updateAt sels' i (fun s => { s with have_cred := true })
    | PostAdd.attachCert cert => updateAt sels' i (fun s => { s with certificate := some cert })
    | PostAdd.attachCertIfNew cert => updateAt sels' i (fun s => { s with certificate := some cert })

/-- Run a sequence of `addSelection` calls starting from the empty list. -/
def runPipeline (spec : Option String) (calls : List AddCall) : List Selection :=
  calls.foldl (runStep spec) []

/-- Two records collide under the duplicate key of the scan: same
mechanism, same client, same server when both present, same
server-name-type. -/
def sameKey (a b : Selection) : Bool :=
  dupKey a b.mech b.client b.server b.servertype

/-- The selection list has pairwise distinct duplicate keys. -/
def noDupKeys : List Selection → Bool
  | [] => true
  | s :: rest => rest.all (fun t => !(sameKey s t)) && noDupKeys rest

/-! ### Session construction (NAHCreate input normalisation, na.c 1225-1338) -/

/-- Server-advertised mechanism OIDs occurring in the hint dictionary
(`kGSSAPIMech*OID`). -/
inductive MechOID
  | IAKERB
  | AppleLKDC
  | PKU2U
  | Kerberos
  | KerberosMS
  | NTLM
deriving DecidableEq, Repr

/-- The certificate input under `kNAHCertificates`: an array, a single
certificate or identity, or a value of some other type (na.c
lines 1306-1324). -/
inductive CertsInput
  | arr (l : List Cert)
  | single (c : Cert)
  | other
deriving DecidableEq, Repr

/-- A value stored in a user-selection preference entry: a CFString or a
value of some other CF type. -/
inductive PrefVal
  | str (s : String)
  | other
deriving DecidableEq, Repr

/-- One mapping of the `UserSelections` preference array (na.c
lines 2390-2400). -/
structure PrefEntry where
  mech : Option PrefVal
  domain : Option PrefVal
  user : Option PrefVal
  client : Option PrefVal
deriving DecidableEq, Repr

/-- An element of the `UserSelections` array: a dictionary or a value of
another type (skipped at na.c line 2394). -/
inductive PrefItem
  | dict (e : PrefEntry)
  | other
deriving DecidableEq, Repr

/-- Oracle answers of the external collaborators: the preferences store
(`UserSelections`, `GSSEnable`), the credential-cache collection, the
realms returned by `krb5_get_host_realm` / `krb5_get_default_realms`,
the display names of NTLM credentials enumerated by `gss_iter_creds`,
and the OS login name (`getlogin`). -/
structure Env where
  userSelections : Option (List PrefItem)
  gssEnable : Bool
  caches : List CCache
  hostRealms : List String
  defaultRealms : List String
  ntlmCreds : List String
  osLogin : Option String
deriving DecidableEq, Repr

/-- The input of `NAHCreate`: hostname (after the external
browser-service deconstruction), service class, and the recognised info
keys (na.c lines 1276-1325). -/
structure NAHInput where
  hostname : String
  service : String
  username : Option String
  password : Option String
  certsInput : Option CertsInput
  servermechs : Option (List (MechOID × String))
  spnegoServerName : Option String
deriving DecidableEq, Repr

/-- The normalised session, `struct NAHData` (na.c lines 92-121), as
far as the guessers read it. -/
structure NASession where
  hostname : String
  service : String
  username : String
  specificname : Option String
  password : Option String
  x509identities : Option (List Cert)
  servermechs : Option (List (MechOID × String))
  spnegoServerName : Option String
deriving DecidableEq, Repr

/-- `findUsername` (na.c lines 504-544): the specific-name is the prefix
before the first `@`, else the suffix after the first `\`, else the
username itself; it is only set when the username came from the info
dictionary.  Falls back to the OS login name, failing if neither is
available. -/
def findUsername (input : NAHInput) (osLogin : Option String) :
    Option (String × Option String) :=
  match input.username with
  | some un =>
    let sn :=
      if hasChar un '@' then beforeFirst un '@'
      else if hasChar un '\\' then afterFirst un '\\'
      else un
    some (un, some sn)
  | none =>
    match osLogin with
    | some n => some (n, none)
    | none => none

/-- Certificate-input normalisation (na.c lines 1306-1324): an array is
kept, a single certificate or identity is wrapped, any other type is
logged and discarded. -/
def normCerts (c : Option CertsInput) : Option (List Cert) :=
  match c with
  | none => none
  | some (CertsInput.arr l) => some l
  | some (CertsInput.single cert) => some [cert]
  | some CertsInput.other => none

/-- Input normalisation of `NAHCreate` (na.c lines 1225-1325): trim dots
from the hostname, resolve username and specific-name, normalise the
certificate input, retain hints.  Returns `none` when no username is
available. -/
def mkSession (input : NAHInput) (osLogin : Option String) : Option NASession :=
  match findUsername input osLogin with
  | none => none
  | some (un, sn) =>
    some
      { hostname := trimDots input.hostname
        service := input.service
        username := un
        specificname := sn
        password := input.password
        x509identities := normCerts input.certsInput
        servermechs := input.servermechs
        spnegoServerName := input.spnegoServerName }

/-- `haveMech` (na.c lines 379-387): false when the hint dictionary is
absent, else a key lookup. -/
def haveMech (na : NASession) (oid : MechOID) : Bool :=
  match na.servermechs with
  | none => false
  | some l => (l.find? (fun p => p.1 == oid)).isSome

/-- `is_smb` (na.c lines 970-977): the service is `host` or `cifs`. -/
def isSmb (na : NASession) : Bool :=
  na.service == "host" || na.service == "cifs"

/-- `is_local_hostname` (na.c lines 577-587). -/
def isLocalHostname (hostname : String) : Bool :=
  strEnds hostname ".local" || strEnds hostname ".members.mac.com" ||
  strEnds hostname ".members.me.com"

/-- `name2mech` (na.c lines 224-248): case-insensitive lookup in the
mechanism-name table. -/
def name2mech (n : String) : NAHMechType :=
  if ciEq "Kerberos" n then NAHMechType.GSS_KERBEROS
  else if ciEq "KerberosUser2User" n then NAHMechType.GSS_KERBEROS_U2U
  else if ciEq "PKU2U" n then NAHMechType.GSS_KERBEROS_PKU2U
  else if ciEq "IAKerb" n then NAHMechType.GSS_KERBEROS_IAKERB
  else if ciEq "NTLM" n then NAHMechType.GSS_NTLM
  else NAHMechType.NO_MECH

/-! ### The user-selection override guesser (add_user_selections, na.c 2374-2434) -/

/-- Whether an optional preference value is a CFString. -/
def isStrOpt : Option PrefVal → Bool
  | some (PrefVal.str _) => true
  | _ => false

/-- The string carried by a preference value, when it is one. -/
def strOfOpt : Option PrefVal → Option String
  | some (PrefVal.str s) => some s
  | _ => none

/-- The `addSelection` call one `UserSelections` entry produces, if any
(the loop body at na.c lines 2389-2432).  The user-field test at line
2408 reads `u == NULL && CFGetTypeID(u) != CFStringGetTypeID()`; with
`u == NULL` the type query has no CFString answer (it aborts in the real
runtime), so entries without a user value never produce a selection and
the `u == NULL` comparison of `domain` against the username at line 2417
is unreachable; it is kept here as written.  Note that the final
argument of the `addSelection` call at line 2430 is the literal `true`,
i.e. flags = 1 = USE_SPNEGO: FORCE_ADD is not set. -/
def userSelectionEntryCall (na : NASession) (e : PrefEntry) : Option AddCall :=
  match strOfOpt e.client, strOfOpt e.mech, strOfOpt e.domain with
  | some c, some m, some d =>
    if e.user.isNone && !(isStrOpt e.user) then none
    else if !(ciEq d na.hostname) then none
    else if e.user.isNone && !(d == na.username) then none
    else if name2mech m == NAHMechType.NO_MECH then none
    else
      some
        { client := c
          clienttype := none
          server := some (na.service ++ "@" ++ na.hostname)
          servertype := none
          mech := name2mech m
          flags := 1
          post := PostAdd.pnone }
  | _, _, _ => none

/-- The call produced by one element of the `UserSelections` array:
non-dictionary elements are skipped (na.c line 2394). -/
def userSelectionCall (na : NASession) (it : PrefItem) : Option AddCall :=
  match it with
  | PrefItem.other => none
  | PrefItem.dict e => userSelectionEntryCall na e

/-- `add_user_selections` (na.c lines 2374-2434) as the list of
`addSelection` calls it makes. -/
def userSelectionCalls (env : Env) (na : NASession) : List AddCall :=
  match env.userSelections with
  | none => []
  | some arr => arr.filterMap (userSelectionCall na)

/-! ### The Kerberos guesser cluster (na.c 546-1107) -/

/-- The wellknown pseudo-realm `kWELLKNOWN_LKDC` (na.c line 900). -/
def wellknownLKDC : String := "WELLKNOWN:COM.APPLE.LKDC"

/-- The session's certificate list, empty when none was supplied. -/
def certList (na : NASession) : List Cert := na.x509identities.getD []

/-- The four booleans and the SPNEGO flag word `guess_kerberos` decides
before producing selections (na.c lines 982-1046). -/
structure KrbFlags where
  tryLkdcClassic : Bool
  tryWlkdc : Bool
  tryIakerbWithLkdc : Bool
  haveKerberos : Bool
  flags : Nat
deriving DecidableEq, Repr

/-- The decision block of `guess_kerberos` (na.c lines 982-1046):
`try_iakerb_with_lkdc` when the GSS feature flag, a password, IAKERB and
AppleLKDC hints are all present and the service is not SMB; otherwise
`try_wlkdc` when PKU2U or AppleLKDC is hinted or the service is VNC;
`try_lkdc_classic` cleared when PKU2U/AppleLKDC is hinted or the SPNEGO
hostname hint lacks `@LKDC`; USE_SPNEGO cleared for AFP without the
AppleLKDC hint; `have_kerberos` when hints are absent or contain a
Kerberos-family OID. -/
def krbDecide (env : Env) (na : NASession) : KrbFlags :=
  let tryIakerb := env.gssEnable && na.password.isSome &&
    haveMech na MechOID.IAKERB && haveMech na MechOID.AppleLKDC && !(isSmb na)
  let tryWlkdc := !tryIakerb &&
    (haveMech na MechOID.PKU2U || haveMech na MechOID.AppleLKDC ||
     na.service == "vnc")
  let tryLkdcClassic :=
    if haveMech na MechOID.PKU2U || haveMech na MechOID.AppleLKDC then false
    else
      match na.spnegoServerName with
      | some sn => strContains sn "@LKDC"
      | none => true
  let flags :=
    if na.service == "afpserver" && !(haveMech na MechOID.AppleLKDC) then 0
    else USE_SPNEGO
  let haveKerberos := na.servermechs.isNone ||
    haveMech na MechOID.IAKERB || haveMech na MechOID.Kerberos ||
    haveMech na MechOID.KerberosMS || haveMech na MechOID.PKU2U
  { tryLkdcClassic := tryLkdcClassic
    tryWlkdc := tryWlkdc
    tryIakerbWithLkdc := tryIakerb
    haveKerberos := haveKerberos
    flags := flags }

/-- `use_existing_principals` (na.c lines 798-898) as the list of
`addSelection` calls it makes: one per cache whose principal is readable
and matches the LKDC filter; for LKDC caches additionally the
`lkdc-hostname` config must equal the session hostname.  The server is
`service/realm@realm` for LKDC caches and `service/hostname@realm`
otherwise.  The cache binding performed on the returned record is the
`bindCache` post action. -/
def useExistingCalls (env : Env) (na : NASession) (onlyLkdc : Bool)
    (flags : Nat) : List AddCall :=
  env.caches.filterMap (fun cc =>
    match cc.principal with
    | none => none
    | some p =>
      if (onlyLkdc && !p.isLkdc) || (!onlyLkdc && p.isLkdc) then none
      else if p.isLkdc then
        match cc.lkdcHostname with
        | none => none
        | some h =>
          if na.hostname == h then
            some
              { client := p.unparsed
                clienttype := some NameType.NTKRB5Principal
                server := some (na.service ++ "/" ++ p.realm ++ "@" ++ p.realm)
                servertype := some NameType.NTKRB5PrincipalReferral
                mech := NAHMechType.GSS_KERBEROS
                flags := flags
                post := PostAdd.bindCache cc }
          else none
      else
        some
          { client := p.unparsed
            clienttype := some NameType.NTKRB5Principal
            server := some (na.service ++ "/" ++ na.hostname ++ "@" ++ p.realm)
            servertype := some NameType.NTKRB5PrincipalReferral
            mech := NAHMechType.GSS_KERBEROS
            flags := flags
            post := PostAdd.bindCache cc })

/-- `wellknown_lkdc` (na.c lines 902-968) as the list of `addSelection`
calls it makes: when a password is present, the
`username@WELLKNOWN:COM.APPLE.LKDC` /
`service/localhost@WELLKNOWN:COM.APPLE.LKDC` selection; then one
selection per certificate whose mapped Kerberos principal (else AppleID)
is available. -/
def wellknownLkdcCalls (na : NASession) (mechtype : NAHMechType)
    (flags : Nat) : List AddCall :=
  let u := na.username ++ "@" ++ wellknownLKDC
  let s := na.service ++ "/localhost@" ++ wellknownLKDC
  (if na.password.isSome then
    [{ client := u
       clienttype := some NameType.NTKRB5Principal
       server := some s
       servertype := some NameType.NTKRB5Principal
       mech := mechtype
       flags := flags
       post := PostAdd.pnone }]
   else []) ++
  (certList na).filterMap (fun cert =>
    match cert.kerberosPrincipal with
    | some csstr =>
      some
        { client := csstr ++ "@" ++ wellknownLKDC
          clienttype := some NameType.NTKRB5Principal
          server := some s
          servertype := some NameType.NTKRB5PrincipalReferral
          mech := mechtype
          flags := flags
          post := PostAdd.attachCert cert }
    | none =>
      match cert.appleID with
      | some str =>
        some
          { client := str ++ "@" ++ wellknownLKDC
            clienttype := some NameType.NTKRB5Principal
            server := some s
            servertype := some NameType.NTKRB5PrincipalReferral
            mech := mechtype
            flags := flags
            post := PostAdd.attachCert cert }
      | none => none)

/-- `add_realms` (na.c lines 674-690): one selection per realm, with
client `username@realm` and server `service/hostname@realm`. -/
def addRealmsCalls (na : NASession) (realms : List String) (flags : Nat) :
    List AddCall :=
  realms.map (fun r =>
    { client := na.username ++ "@" ++ r
      clienttype := some NameType.NTKRB5Principal
      server := some (na.service ++ "/" ++ na.hostname ++ "@" ++ r)
      servertype := some NameType.NTKRB5PrincipalReferral
      mech := NAHMechType.GSS_KERBEROS
      flags := flags
      post := PostAdd.pnone })

/-- `use_classic_kerberos` (na.c lines 693-792) as the list of
`addSelection` calls it makes.  Nothing for local hostnames.  Otherwise:
if the username contains `@`, the full username with server
`service/hostname@UPPER(domain)`; if it contains `\`, the synthesised
`user@domain` client with `FORCE_ADD`; then one selection per host realm
and per default realm. -/
def classicKerberosCalls (env : Env) (na : NASession) (flags : Nat) :
    List AddCall :=
  if isLocalHostname na.hostname then []
  else
    (if hasChar na.username '@' then
      [{ client := na.username
         clienttype := some NameType.NTKRB5Principal
         server := some (na.service ++ "/" ++ na.hostname ++ "@" ++
           strUpper (afterFirst na.username '@'))
         servertype := some NameType.NTKRB5PrincipalReferral
         mech := NAHMechType.GSS_KERBEROS
         flags := flags
         post := PostAdd.pnone }]
     else []) ++
    (if hasChar na.username '\\' then
      [{ client := afterFirst na.username '\\' ++ "@" ++
           beforeFirst na.username '\\'
         clienttype := some NameType.NTKRB5Principal
         server := some (na.service ++ "/" ++ na.hostname ++ "@" ++
           strUpper (beforeFirst na.username '\\'))
         servertype := some NameType.NTKRB5PrincipalReferral
         mech := NAHMechType.GSS_KERBEROS
         flags := flags ||| FORCE_ADD
         post := PostAdd.pnone }]
     else []) ++
    addRealmsCalls na env.hostRealms flags ++
    addRealmsCalls na env.defaultRealms flags

/-- `classic_lkdc` (na.c lines 589-672) as the list of `addSelection`
calls it makes.  Nothing for non-local hostnames.  Otherwise: one
selection per certificate with the SHA-1 fingerprint as client and an
unresolved (NULL) server, attaching the certificate only when the
selection is new; and, when a password is present, one selection with
the username as client and an unresolved server.  The background realm
discovery that later rewrites client/server and signals the latch runs
after `NAHCreate` returns and is not part of this list. -/
def classicLkdcCalls (na : NASession) (flags : Nat) : List AddCall :=
  if isLocalHostname na.hostname then
    (certList na).map (fun cert =>
      { client := cert.sha1hex
        clienttype := some NameType.NTKRB5Principal
        server := none
        servertype := some NameType.NTKRB5PrincipalReferral
        mech := NAHMechType.GSS_KERBEROS
        flags := flags
        post := PostAdd.attachCertIfNew cert }) ++
    (if na.password.isSome then
      [{ client := na.username
         clienttype := some NameType.NTKRB5Principal
         server := none
         servertype := some NameType.NTKRB5PrincipalReferral
         mech := NAHMechType.GSS_KERBEROS
         flags := flags
         post := PostAdd.pnone }]
     else [])
  else []

/-- `guess_kerberos` (na.c lines 979-1107) as the list of `addSelection`
calls it makes, in order: LKDC caches, IAKERB wellknown, wellknown,
classic Kerberos (password only), classic LKDC, non-LKDC caches.
Nothing when `have_kerberos` is false.  Failures of
`krb5_init_context`/`hx509_context_init` are not modelled. -/
def guessKerberosCalls (env : Env) (na : NASession) : List AddCall :=
  let f := krbDecide env na
  if !f.haveKerberos then []
  else
    useExistingCalls env na true f.flags ++
    (if f.tryIakerbWithLkdc then
      wellknownLkdcCalls na NAHMechType.GSS_KERBEROS_IAKERB f.flags else []) ++
    (if f.tryWlkdc then
      wellknownLkdcCalls na NAHMechType.GSS_KERBEROS f.flags else []) ++
    (if na.password.isSome then classicKerberosCalls env na f.flags else []) ++
    (if f.tryLkdcClassic then classicLkdcCalls na f.flags else []) ++
    useExistingCalls env na false f.flags

/-! ### The NTLM guesser (guess_ntlm, na.c 1109-1214) -/

/-- The hint value stored under the NTLM OID, when hints are present. -/
def ntlmHintValue (na : NASession) : Option String :=
  match na.servermechs with
  | none => none
  | some l =>
    match l.find? (fun p => p.1 == MechOID.NTLM) with
    | some pr => some pr.2
    | none => none

/-- `guess_ntlm` (na.c lines 1109-1214) as the list of `addSelection`
calls it makes.  Nothing without the NTLM hint.  USE_SPNEGO is cleared
when the NTLM hint value is the 3-byte tag `raw`.  With a password: one
client from the `@`/`\` username split (`FORCE_ADD` for the explicit
realm forms, else the literal `username@\hostname`), plus
`specificname@\hostname` when a specific-name is present.  Then one
selection per enumerated NTLM credential display name, marked
`have_cred`. -/
def guessNtlmCalls (env : Env) (na : NASession) : List AddCall :=
  if !(haveMech na MechOID.NTLM) then []
  else
    let flags :=
      match ntlmHintValue na with
      | some v => if v == "raw" then 0 else USE_SPNEGO
      | none => USE_SPNEGO
    let s := na.service ++ "@" ++ na.hostname
    (if na.password.isSome then
      (if hasChar na.username '@' then
        [{ client := na.username
           clienttype := some NameType.NTUsername
           server := some s
           servertype := none
           mech := NAHMechType.GSS_NTLM
           flags := flags ||| FORCE_ADD
           post := PostAdd.pnone }]
       else if hasChar na.username '\\' then
        [{ client := afterFirst na.username '\\' ++ "@" ++
             beforeFirst na.username '\\'
           clienttype := some NameType.NTUsername
           server := some s
           servertype := none
           mech := NAHMechType.GSS_NTLM
           flags := flags ||| FORCE_ADD
           post := PostAdd.pnone }]
       else
        [{ client := na.username ++ "@\\" ++ na.hostname
           clienttype := some NameType.NTUsername
           server := some s
           servertype := none
           mech := NAHMechType.GSS_NTLM
           flags := flags
           post := PostAdd.pnone }]) ++
      (match na.specificname with
       | some sn =>
         [{ client := sn ++ "@\\" ++ na.hostname
            clienttype := some NameType.NTUsername
            server := some s
            servertype := none
            mech := NAHMechType.GSS_NTLM
            flags := flags
            post := PostAdd.pnone }]
       | none => [])
     else []) ++
    env.ntlmCreds.map (fun name =>
      { client := name
        clienttype := some NameType.NTUsername
        server := some s
        servertype := none
        mech := NAHMechType.GSS_NTLM
        flags := flags
        post := PostAdd.markHaveCred })

/-! ### NAHCreate (na.c 1225-1338) -/

/-- The ordered list of `addSelection` calls `NAHCreate` makes: user
overrides, the Kerberos pipeline, then NTLM only when no client
certificates were supplied and the service is SMB (na.c
lines 1327-1335). -/
def nahCalls (env : Env) (na : NASession) : List AddCall :=
  userSelectionCalls env na ++
  guessKerberosCalls env na ++
  (if na.x509identities.isNone && isSmb na then guessNtlmCalls env na else [])

/-- `NAHCreate`: normalise the input and run every guesser's
`addSelection` calls against an initially empty selection list.
Returns `none` when no username is available. -/
def NAHCreateModel (env : Env) (input : NAHInput) : Option (List Selection) :=
  match mkSession input env.osLogin with
  | none => none
  | some na => some (runPipeline na.specificname (nahCalls env na))

/-! ### Completion latch (wait_result / signal_result / NAHCancel,
na.c 1983-2020 and 2134-2154) -/

/-- The per-selection latch state: the `canceled` flag, whether the
semaphore `wait` is still allocated (`signal_result` releases it and
sets it to NULL; `NAHCancel` leaves it allocated), and the waiter
count.  All three are mutated only on the session's serial queue. -/
structure Latch where
  canceled : Bool
  hasWait : Bool
  waiting : Nat
deriving DecidableEq, Repr

/-- The serial-queue events that can affect a latch while a waiter is
outstanding: `signal` is `signal_result` (na.c lines 1983-1996), which
drains the waiters and releases the semaphore; `cancel` is the
per-selection body of `NAHCancel` (na.c lines 2144-2151), which sets
`canceled` and drains the waiters. -/
inductive LEv
  | signal
  | cancel
deriving DecidableEq, Repr

/-- Effect of one serial-queue event on the latch. -/
def lstep (l : Latch) (e : LEv) : Latch :=
  match e with
  | LEv.signal => if l.hasWait then { l with hasWait := false, waiting := 0 } else l
  | LEv.cancel => { l with canceled := true, waiting := 0 }

/-- The latch after a sequence of serial-queue events. -/
def runL (l : Latch) (evs : List LEv) : Latch := evs.foldl lstep l

/-- `wait_result` (na.c lines 1998-2020) over the trace of serial-queue
events `evs` that occur between its entry and its final read of
`canceled`: on entry (on the serial queue) a cancelled selection does
not block; a selection whose semaphore is gone (already signalled) does
not block; otherwise the caller registers as a waiter and blocks until
an event wakes it (both `signal_result` and `NAHCancel` signal every
registered waiter), so with an empty trace it never returns (`none`).
The return value is the negation of the `canceled` flag read after the
trace. -/
def wait_result (entry : Latch) (evs : List LEv) : Option Bool :=
  if entry.canceled then some (!(runL entry evs).canceled)
  else if entry.hasWait then
    if evs.isEmpty then none else some (!(runL entry evs).canceled)
  else some (!(runL entry evs).canceled)

/-! ### Kerberos referral update (acquire_kerberos, na.c 1577-1617) -/

/-- The referral-update step of `acquire_kerberos` (na.c
lines 1577-1617): given the client principal the KDC returned (its
unparsed form and realm) and whether that realm is LKDC
(`krb5_realm_is_lkdc`, an external provider predicate, passed in as its
answer), replace the selection's client when it differs as a string,
rebuilding the server as `service/realm@realm` for an LKDC realm and
`service/hostname@realm` otherwise; leave both fields alone when the
returned principal equals the selection's client. -/
def referralUpdate (service hostname : String) (client : String)
    (server : Option String) (credClient : KPrincipal) (isLkdc : Bool) :
    String × Option String :=
  if credClient.unparsed = client then (client, server)
  else
    (credClient.unparsed,
     if isLkdc then
       some (service ++ "/" ++ credClient.realm ++ "@" ++ credClient.realm)
     else
       some (service ++ "/" ++ hostname ++ "@" ++ credClient.realm))

/-! ### Reference key (NAHCopyReferenceKey, na.c 2285-2306) -/

/-- `NAHCopyReferenceKey` (na.c lines 2285-2306): NULL for a NULL
client; `krb5:<client>` for the mechanisms GSS_KERBEROS,
GSS_KERBEROS_PKU2U and GSS_KERBEROS_IAKERB; `ntlm:<client>` for
GSS_NTLM; NULL for every other mechanism (the switch has no case for
GSS_KERBEROS_U2U or NO_MECH). -/
def copyReferenceKey (mech : NAHMechType) (client : Option String) :
    Option String :=
  match client with
  | none => none
  | some c =>
    match mech with
    | NAHMechType.GSS_KERBEROS => some ("krb5:" ++ c)
    | NAHMechType.GSS_KERBEROS_PKU2U => some ("krb5:" ++ c)
    | NAHMechType.GSS_KERBEROS_IAKERB => some ("krb5:" ++ c)
    | NAHMechType.GSS_NTLM => some ("ntlm:" ++ c)
    | _ => none

/-- The duplicate-key projection of a record: the fields the scan
compares. -/
def selKey (s : Selection) :
    NAHMechType × String × Option String × NameType :=
  (s.mech, s.client, s.server, s.servertype)

/-- A record with unresolved (NULL) server carries the
KRB5PrincipalReferral server-name-type.  This holds for every record a
guesser inserts: the only `addSelection` calls with a NULL server are
those of `classic_lkdc` (na.c lines 639-641 and 660-662), which pass
`kNAHNTKRB5PrincipalReferral`. -/
def noneImpliesReferral (r : Selection) : Bool :=
  match r.server with
  | none => r.servertype == NameType.NTKRB5PrincipalReferral
  | some _ => true

/-- The call-level form of `noneImpliesReferral`: the record the call
would append satisfies it. -/
def callNoneOK (c : AddCall) : Bool := noneImpliesReferral (mkNewSel c)

/-- A record carries exactly the call's key: the call's mechanism and
client, its server string, and its (defaulted) server-name-type. -/
def exactMatch (c : AddCall) (r : Selection) : Bool :=
  r.mech == c.mech && r.client == c.client && r.server == c.server &&
  r.servertype == c.servertype.getD NameType.NTServiceBasedName

/-- The specific-name filter applied to the wellknown-LKDC client
`<username>@WELLKNOWN:COM.APPLE.LKDC`: true when no specific-name is
set or the client begins with it (`wellknown_lkdc` passes no
`FORCE_ADD`, so the filter of na.c line 447 applies). -/
def wkFilterOK (na : NASession) : Bool :=
  match na.specificname with
  | none => true
  | some sn => strStarts (na.username ++ "@" ++ wellknownLKDC) sn

/-- Concrete instance of the specific-name filter: specific-name
`alice`, no `FORCE_ADD`, client `bob`. -/
def cC2 : AddCall :=
  { client := "bob"
    clienttype := none
    server := none
    servertype := none
    mech := NAHMechType.GSS_KERBEROS
    flags := 1
    post := PostAdd.pnone }

/-- A concrete duplicate scenario: the same call issued twice. -/
def cC10 : AddCall :=
  { client := "alice@REALM"
    clienttype := none
    server := some "cifs/fs@REALM"
    servertype := none
    mech := NAHMechType.GSS_KERBEROS
    flags := 3
    post := PostAdd.pnone }

/-- An empty external environment. -/
def envEmpty : Env :=
  { userSelections := none
    gssEnable := true
    caches := []
    hostRealms := []
    defaultRealms := []
    ntlmCreds := []
    osLogin := none }

/-- A session on a local (Bonjour) hostname. -/
def naLocal : NASession :=
  { hostname := "mac-mini.local"
    service := "afpserver"
    username := "bob"
    specificname := some "bob"
    password := some "p"
    x509identities := none
    servermechs := none
    spnegoServerName := none }

/-- A session on a non-local hostname. -/
def naRemote : NASession :=
  { hostname := "fs.corp.example.com"
    service := "cifs"
    username := "bob"
    specificname := some "bob"
    password := some "p"
    x509identities := none
    servermechs := none
    spnegoServerName := none }

/-- Counterexample input for C4: hints contain PKU2U (so `try_wlkdc` is
set and the pipeline runs) but no password was supplied. -/
def inputC4 : NAHInput :=
  { hostname := "peer.example"
    service := "vnc"
    username := some "alice"
    password := none
    certsInput := none
    servermechs := some [(MechOID.PKU2U, "")]
    spnegoServerName := none }

/-- The session `NAHCreate` builds from `inputC4`. -/
def naC4 : NASession :=
  { hostname := "peer.example"
    service := "vnc"
    username := "alice"
    specificname := some "alice"
    password := none
    x509identities := none
    servermechs := some [(MechOID.PKU2U, "")]
    spnegoServerName := none }

/-- The username-based wellknown-LKDC call (na.c lines 908-924). -/
def wkUserCall (na : NASession) (mechtype : NAHMechType) (fl : Nat) : AddCall :=
  { client := na.username ++ "@" ++ wellknownLKDC
    clienttype := some NameType.NTKRB5Principal
    server := some (na.service ++ "/localhost@" ++ wellknownLKDC)
    servertype := some NameType.NTKRB5Principal
    mech := mechtype
    flags := fl
    post := PostAdd.pnone }

/-- A session with a PKU2U hint and a password. -/
def naC4w : NASession :=
  { hostname := "peer.example"
    service := "vnc"
    username := "alice"
    specificname := some "alice"
    password := some "p"
    x509identities := none
    servermechs := some [(MechOID.PKU2U, "")]
    spnegoServerName := none }

/-- Counterexample override entry for C3: domain equals the hostname,
the user field equals the session username, the client does not begin
with the specific-name. -/
def entryC3 : PrefEntry :=
  { mech := some (PrefVal.str "Kerberos")
    domain := some (PrefVal.str "host.example.com")
    user := some (PrefVal.str "DOM\\alice")
    client := some (PrefVal.str "bob") }

/-- Environment whose preferences store carries `entryC3`. -/
def envC3 : Env := { envEmpty with userSelections := some [PrefItem.dict entryC3] }

/-- Counterexample input for C3. -/
def inputC3 : NAHInput :=
  { hostname := "host.example.com"
    service := "afpserver"
    username := some "DOM\\alice"
    password := none
    certsInput := none
    servermechs := none
    spnegoServerName := none }

/-- The session `NAHCreate` builds from `inputC3`: the specific-name is
`alice` (the suffix after the backslash). -/
def naC3 : NASession :=
  { hostname := "host.example.com"
    service := "afpserver"
    username := "DOM\\alice"
    specificname := some "alice"
    password := none
    x509identities := none
    servermechs := none
    spnegoServerName := none }

/-- A second override entry, satisfying the amended claim's
conditions. -/
def entryC3w : PrefEntry :=
  { mech := some (PrefVal.str "Kerberos")
    domain := some (PrefVal.str "HOST.example.com")
    user := some (PrefVal.str "carol")
    client := some (PrefVal.str "carol") }

/-- Environment whose preferences store carries `entryC3w`. -/
def envC3w : Env := { envEmpty with userSelections := some [PrefItem.dict entryC3w] }

/-- A session matching `entryC3w`. -/
def naC3w : NASession :=
  { hostname := "host.example.com"
    service := "afpserver"
    username := "carol"
    specificname := some "carol"
    password := none
    x509identities := none
    servermechs := none
    spnegoServerName := none }

/-- A client certificate for the C6 counterexample. -/
def certC6 : Cert :=
  { sha1hex := "AABBCCDDEEFF00112233445566778899AABBCCDD"
    kerberosPrincipal := none
    appleID := none }

/-- An NTLM override entry in the preferences store. -/
def entryC6 : PrefEntry :=
  { mech := some (PrefVal.str "NTLM")
    domain := some (PrefVal.str "host.example.com")
    user := some (PrefVal.str "alice")
    client := some (PrefVal.str "alice") }

/-- Environment whose preferences store carries `entryC6`. -/
def envC6 : Env := { envEmpty with userSelections := some [PrefItem.dict entryC6] }

/-- Counterexample input for C6: certificates supplied, service
`afpserver`, no server hints. -/
def inputC6 : NAHInput :=
  { hostname := "host.example.com"
    service := "afpserver"
    username := some "alice"
    password := none
    certsInput := some (CertsInput.arr [certC6])
    servermechs := none
    spnegoServerName := none }

/-- The session `NAHCreate` builds from `inputC6`. -/
def naC6 : NASession :=
  { hostname := "host.example.com"
    service := "afpserver"
    username := "alice"
    specificname := some "alice"
    password := none
    x509identities := some [certC6]
    servermechs := none
    spnegoServerName := none }

/-- The NTLM call `entryC6` produces. -/
def ntlmOverrideCall : AddCall :=
  { client := "alice"
    clienttype := none
    server := some "afpserver@host.example.com"
    servertype := none
    mech := NAHMechType.GSS_NTLM
    flags := 1
    post := PostAdd.pnone }

example : strStarts "alice@REALM" "alice" = true := by decide

example : strStarts "bob" "alice" = false := by decide

example : ciEq "Host.EXAMPLE.com" "host.example.COM" = true := by decide

example : strEnds "mac-mini.local" ".local" = true := by decide

example : strContains "cifs@LKDC:SHA1.X" "@LKDC" = true := by decide

example : beforeFirst "alice@REALM" '@' = "alice" := by decide

example : afterFirst "DOM\\alice" '\\' = "alice" := by decide

example : trimDots ".host.example." = "host.example" := by decide

example : strUpper "corp.example" = "CORP.EXAMPLE" := by decide

/-! ### Helper lemmas about the selection set -/

theorem dupKey_congr {a a' : Selection} (h : selKey a = selKey a')
    (mech : NAHMechType) (client : String) (server : Option String)
    (stype : NameType) :
    dupKey a mech client server stype = dupKey a' mech client server stype := by
  unfold selKey at h
  simp only [Prod.mk.injEq] at h
  obtain ⟨h1, h2, h3, h4⟩ := h
  unfold dupKey
  rw [h1, h2, h3, h4]

theorem sameKey_congr_left {a a' b : Selection} (h : selKey a = selKey a') :
    sameKey a b = sameKey a' b :=
  dupKey_congr h b.mech b.client b.server b.servertype

theorem sameKey_congr_right {a b b' : Selection} (h : selKey b = selKey b') :
    sameKey a b = sameKey a b' := by
  unfold selKey at h
  simp only [Prod.mk.injEq] at h
  obtain ⟨h1, h2, h3, h4⟩ := h
  unfold sameKey
  rw [h1, h2, h3, h4]

theorem findDupIdx_eq_none {p : Selection → Bool} :
    ∀ {l : List Selection}, findDupIdx p l = none →
      ∀ x ∈ l, p x = false := by
  intro l
  induction l with
  | nil => intro _ x hx; cases hx
  | cons s rest ih =>
    intro h x hx
    unfold findDupIdx at h
    cases hs : p s with
    | true => rw [if_pos hs] at h; cases h
    | false =>
      rw [if_neg (by simp [hs])] at h
      rcases List.mem_cons.mp hx with rfl | hx'
      · exact hs
      · cases hrest : findDupIdx p rest with
        | some j => rw [hrest] at h; cases h
        | none => exact ih hrest x hx'

theorem findDupIdx_lt_length {p : Selection → Bool} :
    ∀ {l : List Selection} {i : Nat}, findDupIdx p l = some i →
      i < l.length := by
  intro l
  induction l with
  | nil => intro i h; cases h
  | cons s rest ih =>
    intro i h
    unfold findDupIdx at h
    cases hs : p s with
    | true =>
      rw [if_pos hs] at h
      cases h
      simp
    | false =>
      rw [if_neg (by simp [hs])] at h
      cases hrest : findDupIdx p rest with
      | none => rw [hrest] at h; cases h
      | some j =>
        rw [hrest] at h
        have hij : j + 1 = i := Option.some.inj h
        have := ih hrest
        simp only [List.length_cons]
        omega

theorem noDupKeys_append {l : List Selection} {n : Selection}
    (h : noDupKeys l = true) (hn : ∀ s ∈ l, sameKey s n = false) :
    noDupKeys (l ++ [n]) = true := by
  induction l with
  | nil => simp [noDupKeys]
  | cons s rest ih =>
    unfold noDupKeys at h ⊢
    simp only [Bool.and_eq_true] at h
    obtain ⟨h1, h2⟩ := h
    simp only [List.cons_append, Bool.and_eq_true]
    constructor
    · simp only [List.all_append, Bool.and_eq_true]
      refine ⟨h1, ?_⟩
      simp only [List.all_cons, List.all_nil, Bool.and_true]
      have := hn s (by simp)
      simp [this]
    · exact ih h2 (fun t ht => hn t (by simp [ht]))

theorem all_updateAt {q : Selection → Bool} {f : Selection → Selection}
    (hf : ∀ x, q (f x) = q x) :
    ∀ (l : List Selection) (i : Nat), (updateAt l i f).all q = l.all q := by
  intro l
  induction l with
  | nil => intro i; rfl
  | cons s rest ih =>
    intro i
    cases i with
    | zero =>
      simp only [updateAt, List.get?_cons_zero, List.set_cons_zero,
        List.all_cons, hf]
    | succ j =>
      simp only [updateAt, List.get?_cons_succ, List.set_cons_succ]
      cases hj : rest.get? j with
      | none => simp
      | some t =>
        simp only [List.all_cons]
        have := ih j
        simp only [updateAt, hj] at this
        rw [this]

theorem noDupKeys_updateAt {f : Selection → Selection}
    (hf : ∀ x, selKey (f x) = selKey x) :
    ∀ (l : List Selection) (i : Nat), noDupKeys l = true →
      noDupKeys (updateAt l i f) = true := by
  intro l
  induction l with
  | nil => intro i h; exact h
  | cons s rest ih =>
    intro i h
    unfold noDupKeys at h
    simp only [Bool.and_eq_true] at h
    obtain ⟨h1, h2⟩ := h
    cases i with
    | zero =>
      simp only [updateAt, List.get?_cons_zero, List.set_cons_zero]
      unfold noDupKeys
      simp only [Bool.and_eq_true]
      refine ⟨?_, h2⟩
      have : (fun t => !sameKey (f s) t) = (fun t => !sameKey s t) := by
        funext t
        rw [sameKey_congr_left (hf s)]
      rw [this]
      exact h1
    | succ j =>
      simp only [updateAt, List.get?_cons_succ, List.set_cons_succ]
      cases hj : rest.get? j with
      | none => unfold noDupKeys; simp only [Bool.and_eq_true]; exact ⟨h1, h2⟩
      | some t =>
        unfold noDupKeys
        simp only [Bool.and_eq_true]
        constructor
        · have hall : ∀ x, (fun u => !sameKey s u) (f x) = (fun u => !sameKey s u) x := by
            intro x
            simp only []
            rw [sameKey_congr_right (hf x)]
          have := all_updateAt (q := fun u => !sameKey s u) hall rest j
          simp only [updateAt, hj] at this
          rw [this]
          exact h1
        · have := ih j h2
          simp only [updateAt, hj] at this
          exact this

theorem bindCacheFn_key (cc : CCache) (s : Selection) :
    selKey (bindCacheFn cc s) = selKey s := by
  unfold bindCacheFn selKey
  by_cases h : s.ccache.isNone = true
  · rw [if_pos h]
  · rw [if_neg h]

theorem addSelection_filtered {spec : Option String} {sels : List Selection}
    {c : AddCall} (h : matchingOK spec c = false) :
    addSelection spec sels c = (AddOutcome.filtered, sels) := by
  unfold addSelection
  rw [if_pos h]

theorem addSelection_dup {spec : Option String} {sels : List Selection}
    {c : AddCall} {i : Nat} (h1 : matchingOK spec c = true)
    (h2 : findDupIdx (dupPred c) sels = some i) :
    addSelection spec sels c = (AddOutcome.dup i, sels) := by
  unfold addSelection
  rw [if_neg (by simp [h1]), h2]

theorem addSelection_added {spec : Option String} {sels : List Selection}
    {c : AddCall} (h1 : matchingOK spec c = true)
    (h2 : findDupIdx (dupPred c) sels = none) :
    addSelection spec sels c =
      (AddOutcome.added sels.length, sels ++ [mkNewSel c]) := by
  unfold addSelection
  rw [if_neg (by simp [h1]), h2]

theorem sameKey_mkNewSel (s : Selection) (c : AddCall) :
    sameKey s (mkNewSel c) = dupPred c s := rfl

theorem runStep_noDupKeys (spec : Option String) (sels : List Selection)
    (c : AddCall) (h : noDupKeys sels = true) :
    noDupKeys (runStep spec sels c) = true := by
  by_cases hm : matchingOK spec c = false
  · unfold runStep
    rw [addSelection_filtered hm]
    exact h
  · have hm' : matchingOK spec c = true := by
      cases hmv : matchingOK spec c
      · exact absurd hmv hm
      · rfl
    cases hd : findDupIdx (dupPred c) sels with
    | some i =>
      unfold runStep
      rw [addSelection_dup hm' hd]
      cases c.post with
      | pnone => exact h
      | bindCache cc => exact noDupKeys_updateAt (bindCacheFn_key cc) sels i h
      | markHaveCred =>
        exact noDupKeys_updateAt
          (f := fun s => { s with have_cred := true }) (fun x => rfl) sels i h
      | attachCert cert =>
        exact noDupKeys_updateAt
          (f := fun s => { s with certificate := some cert }) (fun x => rfl) sels i h
      | attachCertIfNew cert => exact h
    | none =>
      have happ : noDupKeys (sels ++ [mkNewSel c]) = true := by
        refine noDupKeys_append h (fun s hs => ?_)
        rw [sameKey_mkNewSel]
        exact findDupIdx_eq_none hd s hs
      unfold runStep
      rw [addSelection_added hm' hd]
      cases c.post with
      | pnone => exact happ
      | bindCache cc =>
        exact noDupKeys_updateAt (bindCacheFn_key cc) _ _ happ
      | markHaveCred =>
        exact noDupKeys_updateAt
          (f := fun s => { s with have_cred := true }) (fun x => rfl) _ _ happ
      | attachCert cert =>
        exact noDupKeys_updateAt
          (f := fun s => { s with certificate := some cert }) (fun x => rfl) _ _ happ
      | attachCertIfNew cert =>
        exact noDupKeys_updateAt
          (f := fun s => { s with certificate := some cert }) (fun x => rfl) _ _ happ

theorem foldl_runStep_noDupKeys (spec : Option String) :
    ∀ (calls : List AddCall) (sels : List Selection),
      noDupKeys sels = true →
      noDupKeys (calls.foldl (runStep spec) sels) = true := by
  intro calls
  induction calls with
  | nil => intro sels h; exact h
  | cons c rest ih =>
    intro sels h
    exact ih (runStep spec sels c) (runStep_noDupKeys spec sels c h)

/-! ### Claim C1 -/

/-- C1: for every sequence of `addSelection` calls (hence for any input
to `NAHCreate`, whose guessers only ever extend the list through
`addSelection` and field updates that do not touch the key), the
resulting selection list contains no two records with the same
mechanism, the same client (case-sensitive), the same server when both
are present, and the same server-name-type: when such a record already
exists the scan returns it, reports duplicate, and appends nothing. -/
theorem C1_selection_list_dedup (spec : Option String) (calls : List AddCall) :
    noDupKeys (runPipeline spec calls) = true :=
  foldl_runStep_noDupKeys spec calls [] rfl

/-! ### Claim C2 -/

/-- C2: when the session's specific-name is present, `FORCE_ADD` is
clear, and the client does not begin with the specific-name, the
`addSelection` call is a no-op: it returns no selection
(`AddOutcome.filtered`, the NULL return at na.c line 455) and the
selection list is unchanged. -/
theorem C2_specific_name_filter (spec : Option String) (sn : String)
    (sels : List Selection) (c : AddCall)
    (h1 : spec = some sn) (h2 : flagSet c.flags FORCE_ADD = false)
    (h3 : strStarts c.client sn = false) :
    addSelection spec sels c = (AddOutcome.filtered, sels) ∧
    runStep spec sels c = sels := by
  subst h1
  have hm : matchingOK (some sn) c = false := by
    unfold matchingOK
    rw [h2]
    show (false || strStarts c.client sn) = false
    rw [h3]
    rfl
  refine ⟨addSelection_filtered hm, ?_⟩
  unfold runStep
  rw [addSelection_filtered hm]

/-- Witness for C2 at a concrete input. -/
theorem C2_specific_name_filter_witness :
    addSelection (some "alice") [] cC2 = (AddOutcome.filtered, []) ∧
    runStep (some "alice") [] cC2 = [] :=
  C2_specific_name_filter (some "alice") "alice" [] cC2 rfl (by decide) (by decide)

/-! ### Claim C10 -/

/-- C10: an `addSelection` call that finds a duplicate changes nothing:
the selection list (hence every field of the existing record — client,
server, name types, SPNEGO flag, mechanism, certificate, bound cache,
`have_cred`, label and latch) is exactly as before the call, no record
is appended and no new latch is created, whatever flags or server string
the caller passed; the reported index denotes an existing record. -/
theorem C10_duplicate_frame (spec : Option String) (sels : List Selection)
    (c : AddCall) (i : Nat)
    (h : (addSelection spec sels c).1 = AddOutcome.dup i) :
    (addSelection spec sels c).2 = sels ∧ i < sels.length := by
  by_cases hm : matchingOK spec c = false
  · rw [addSelection_filtered hm] at h
    cases h
  · have hm' : matchingOK spec c = true := by
      cases hmv : matchingOK spec c
      · exact absurd hmv hm
      · rfl
    cases hd : findDupIdx (dupPred c) sels with
    | some j =>
      rw [addSelection_dup hm' hd] at h ⊢
      have hij : j = i := by cases h; rfl
      subst hij
      exact ⟨rfl, findDupIdx_lt_length hd⟩
    | none =>
      rw [addSelection_added hm' hd] at h
      cases h

/-- Witness for C10 at a concrete input. -/
theorem C10_duplicate_frame_witness :
    (addSelection none [mkNewSel cC10] cC10).2 = [mkNewSel cC10] ∧
    0 < [mkNewSel cC10].length :=
  C10_duplicate_frame none [mkNewSel cC10] cC10 0 (by decide)

/-! ### Claim C9 -/

/-- C9 counterexample: for a selection with mechanism KerberosUser2User
(`GSS_KERBEROS_U2U`, reachable through a `UserSelections` entry with
mech `KerberosUser2User`) and client `alice`, `NAHCopyReferenceKey`
returns NULL, not `krb5:alice`: the switch at na.c lines 2292-2303 has
no case for `GSS_KERBEROS_U2U`, so it falls to `default` and the claimed
`krb5:<client>` key is not built for this Kerberos-family mechanism. -/
theorem C9_counterexample :
    copyReferenceKey NAHMechType.GSS_KERBEROS_U2U (some "alice") ≠
      some ("krb5:" ++ "alice") ∧
    copyReferenceKey NAHMechType.GSS_KERBEROS_U2U (some "alice") = none := by
  exact ⟨by decide, rfl⟩

/-- C9 (amended): for a selection with a non-null client, the reference
key is `krb5:<client>` for the mechanisms Kerberos, KerberosIAKERB and
KerberosPKU2U, and `ntlm:<client>` for NTLM; KerberosU2U (and NO_MECH)
yield no key. -/
theorem C9_reference_key_amended (c : String) :
    copyReferenceKey NAHMechType.GSS_KERBEROS (some c) = some ("krb5:" ++ c) ∧
    copyReferenceKey NAHMechType.GSS_KERBEROS_IAKERB (some c) = some ("krb5:" ++ c) ∧
    copyReferenceKey NAHMechType.GSS_KERBEROS_PKU2U (some c) = some ("krb5:" ++ c) ∧
    copyReferenceKey NAHMechType.GSS_NTLM (some c) = some ("ntlm:" ++ c) ∧
    copyReferenceKey NAHMechType.GSS_KERBEROS_U2U (some c) = none :=
  ⟨rfl, rfl, rfl, rfl, rfl⟩

/-! ### Claim C8 -/

/-- C8: when the Kerberos acquisition succeeds and the client principal
the KDC returned differs as a string from the selection's client, the
client is replaced by the returned principal and the server rebuilt as
`service/realm@realm` when the returned realm is LKDC, and as
`service/hostname@realm` otherwise; when the returned principal is
equal, both fields are unchanged. -/
theorem C8_referral_update (service hostname client : String)
    (server : Option String) (cred : KPrincipal) :
    (cred.unparsed ≠ client →
      referralUpdate service hostname client server cred true =
        (cred.unparsed,
         some (service ++ "/" ++ cred.realm ++ "@" ++ cred.realm)) ∧
      referralUpdate service hostname client server cred false =
        (cred.unparsed,
         some (service ++ "/" ++ hostname ++ "@" ++ cred.realm))) ∧
    (∀ b : Bool, cred.unparsed = client →
      referralUpdate service hostname client server cred b =
        (client, server)) := by
  constructor
  · intro h
    constructor <;> simp [referralUpdate, h]
  · intro b h
    unfold referralUpdate
    rw [if_pos h]

/-- Witness for C8 at a concrete input: a non-LKDC referral rewrite. -/
theorem C8_referral_update_witness :
    referralUpdate "cifs" "fs.example.com" "alice@OLD" (some "cifs/fs.example.com@OLD")
      { unparsed := "alice@NEW", realm := "NEW", isLkdc := false } false =
      ("alice@NEW", some ("cifs" ++ "/" ++ "fs.example.com" ++ "@" ++ "NEW")) :=
  ((C8_referral_update "cifs" "fs.example.com" "alice@OLD"
      (some "cifs/fs.example.com@OLD")
      { unparsed := "alice@NEW", realm := "NEW", isLkdc := false }).1
    (by decide)).2

/-! ### Claim C7 -/

theorem runL_canceled : ∀ (evs : List LEv) (l : Latch),
    (runL l evs).canceled = (l.canceled || evs.contains LEv.cancel) := by
  intro evs
  induction evs with
  | nil => intro l; simp [runL]
  | cons e rest ih =>
    intro l
    unfold runL at ih ⊢
    simp only [List.foldl_cons]
    rw [ih (lstep l e)]
    cases e with
    | signal =>
      have hc : (lstep l LEv.signal).canceled = l.canceled := by
        unfold lstep
        by_cases hw : l.hasWait = true
        · rw [if_pos hw]
        · rw [if_neg hw]
      rw [hc]
      simp [List.contains_cons]
    | cancel =>
      have hc : (lstep l LEv.cancel).canceled = true := rfl
      rw [hc]
      simp [List.contains_cons]

/-- C7: a `wait_result` that returns (does not block forever in the
trace) returns false exactly when the session was cancelled — at entry
or by a `NAHCancel` event before its final read — and true on
successful completion (no cancellation anywhere in the trace).  Since
`canceled` is sticky, every waiter, current or subsequent, observes
failure after `NAHCancel`. -/
theorem C7_wait_cancel (entry : Latch) (evs : List LEv) (b : Bool)
    (h : wait_result entry evs = some b) :
    b = !(entry.canceled || evs.contains LEv.cancel) := by
  unfold wait_result at h
  by_cases hc : entry.canceled = true
  · rw [if_pos hc] at h
    rw [← Option.some.inj h, runL_canceled]
  · rw [if_neg hc] at h
    by_cases hw : entry.hasWait = true
    · rw [if_pos hw] at h
      by_cases he : evs.isEmpty = true
      · rw [if_pos he] at h; cases h
      · rw [if_neg he] at h
        rw [← Option.some.inj h, runL_canceled]
    · rw [if_neg hw] at h
      rw [← Option.some.inj h, runL_canceled]

/-- Witness for C7 at a concrete input: a waiter blocked on a live latch
that is woken by `NAHCancel` observes failure. -/
theorem C7_wait_cancel_witness :
    (false : Bool) =
      !(({ canceled := false, hasWait := true, waiting := 1 } : Latch).canceled ||
        [LEv.cancel].contains LEv.cancel) :=
  C7_wait_cancel { canceled := false, hasWait := true, waiting := 1 }
    [LEv.cancel] false (by decide)

/-! ### Claim C5 -/

/-- C5: when the canonical hostname ends in `.local`,
`.members.mac.com` or `.members.me.com`, the classic host-realm
Kerberos guesser (`use_classic_kerberos`: the user@domain, domain\user,
host-realm and default-realm forms) makes no `addSelection` call;
conversely, for a hostname with none of those suffixes the classic-LKDC
guesser (`classic_lkdc`: SHA-1-fingerprint and password-based
selections with initially unresolved server) makes none. -/
theorem C5_lkdc_locality (env : Env) (na : NASession) (fl : Nat) :
    (isLocalHostname na.hostname = true →
      classicKerberosCalls env na fl = []) ∧
    (isLocalHostname na.hostname = false →
      classicLkdcCalls na fl = []) := by
  constructor
  · intro h
    unfold classicKerberosCalls
    rw [if_pos h]
  · intro h
    unfold classicLkdcCalls
    rw [if_neg (by simp [h])]

/-- Witness for C5 at concrete inputs: a `.local` hostname suppresses
the classic Kerberos guesser and a non-local hostname suppresses the
classic-LKDC guesser. -/
theorem C5_lkdc_locality_witness :
    classicKerberosCalls envEmpty naLocal 1 = [] ∧
    classicLkdcCalls naRemote 1 = [] :=
  ⟨(C5_lkdc_locality envEmpty naLocal 1).1 (by decide),
   (C5_lkdc_locality envEmpty naRemote 1).2 (by decide)⟩

/-! ### Claim C4 -/

/-- C4 counterexample: the Kerberos pipeline runs (`have_kerberos`) with
`try_wlkdc` true, yet no `addSelection` call anywhere in `NAHCreate`
carries the client `alice@WELLKNOWN:COM.APPLE.LKDC` and the resulting
selection list holds no selection with that client: the username-based
wellknown-LKDC selection is only emitted when a password is present
(the `if (na->password)` guard at na.c line 922), which the claim does
not require. -/
theorem C4_counterexample :
    mkSession inputC4 envEmpty.osLogin = some naC4 ∧
    (krbDecide envEmpty naC4).tryWlkdc = true ∧
    (krbDecide envEmpty naC4).haveKerberos = true ∧
    (nahCalls envEmpty naC4).all
      (fun c => !(c.client == "alice@" ++ wellknownLKDC)) = true ∧
    (runPipeline naC4.specificname (nahCalls envEmpty naC4)).all
      (fun r => !(r.client == "alice@" ++ wellknownLKDC)) = true := by
  decide

theorem wkUserCall_mem (na : NASession) (mechtype : NAHMechType) (fl : Nat)
    (pw : String) (hpw : na.password = some pw) :
    wkUserCall na mechtype fl ∈ wellknownLkdcCalls na mechtype fl := by
  unfold wellknownLkdcCalls
  rw [hpw]
  exact List.mem_append_left _ (List.mem_singleton.mpr rfl)

theorem guessKerberosCalls_run (env : Env) (na : NASession)
    (hk : (krbDecide env na).haveKerberos = true) :
    guessKerberosCalls env na =
      useExistingCalls env na true (krbDecide env na).flags ++
      (if (krbDecide env na).tryIakerbWithLkdc then
        wellknownLkdcCalls na NAHMechType.GSS_KERBEROS_IAKERB
          (krbDecide env na).flags else []) ++
      (if (krbDecide env na).tryWlkdc then
        wellknownLkdcCalls na NAHMechType.GSS_KERBEROS
          (krbDecide env na).flags else []) ++
      (if na.password.isSome then
        classicKerberosCalls env na (krbDecide env na).flags else []) ++
      (if (krbDecide env na).tryLkdcClassic then
        classicLkdcCalls na (krbDecide env na).flags else []) ++
      useExistingCalls env na false (krbDecide env na).flags := by
  unfold guessKerberosCalls
  simp only [hk, Bool.not_true, Bool.false_eq_true, if_false]

/-- The username-based wellknown-LKDC call reaches the pipeline's call
list whenever `have_kerberos` holds, a password is present, and the
matching mechanism flag is set. -/
theorem wkUserCall_mem_pipeline (env : Env) (na : NASession) (pw : String)
    (hk : (krbDecide env na).haveKerberos = true)
    (hpw : na.password = some pw) :
    ((krbDecide env na).tryIakerbWithLkdc = true →
      wkUserCall na NAHMechType.GSS_KERBEROS_IAKERB (krbDecide env na).flags ∈
        guessKerberosCalls env na) ∧
    ((krbDecide env na).tryWlkdc = true →
      wkUserCall na NAHMechType.GSS_KERBEROS (krbDecide env na).flags ∈
        guessKerberosCalls env na) := by
  rw [guessKerberosCalls_run env na hk]
  constructor
  · intro hi
    rw [if_pos hi]
    exact List.mem_append_left _ (List.mem_append_left _
      (List.mem_append_left _ (List.mem_append_left _
        (List.mem_append_right _
          (wkUserCall_mem na NAHMechType.GSS_KERBEROS_IAKERB _ pw hpw)))))
  · intro hw
    rw [if_pos hw]
    exact List.mem_append_left _ (List.mem_append_left _
      (List.mem_append_left _ (List.mem_append_right _
        (wkUserCall_mem na NAHMechType.GSS_KERBEROS _ pw hpw))))

/-! ### Claim C3 -/

/-- C3 counterexample: the entry's domain case-insensitively equals the
canonical hostname and its user equals the session username, so the
claim asserts a selection is added with `FORCE_ADD` set — bypassing the
specific-name filter — and server `afpserver@host.example.com`.  But
`add_user_selections` passes the literal `true` (= 1 = USE_SPNEGO, not
FORCE_ADD) as the flags argument (na.c line 2430), the filter therefore
applies, the client `bob` does not begin with the specific-name
`alice`, and `NAHCreate` returns an empty selection list: no selection
is added at all. -/
theorem C3_counterexample :
    entryC3.domain = some (PrefVal.str "host.example.com") ∧
    ciEq "host.example.com" naC3.hostname = true ∧
    entryC3.user = some (PrefVal.str naC3.username) ∧
    mkSession inputC3 envC3.osLogin = some naC3 ∧
    NAHCreateModel envC3 inputC3 = some [] := by
  decide

/-- C3 (amended): every `UserSelections` entry with string-valued mech,
domain, user and client whose mech names a known mechanism and whose
domain case-insensitively equals the canonical hostname is passed to
`addSelection` with that client, server `<service>@<hostname>`, and
flags = USE_SPNEGO only: FORCE_ADD is NOT set, so the specific-name
filter is not bypassed and an entry whose client does not begin with
the specific-name produces no selection (per the filter of C2).
Entries whose user value is absent never produce a selection, and a
supplied user value is not compared against the session username. -/
theorem C3_user_selection_amended (env : Env) (na : NASession)
    (arr : List PrefItem) (e : PrefEntry) (cs ms ds : String) (u : PrefVal)
    (harr : env.userSelections = some arr)
    (hmem : PrefItem.dict e ∈ arr)
    (hc : e.client = some (PrefVal.str cs))
    (hm : e.mech = some (PrefVal.str ms))
    (hd : e.domain = some (PrefVal.str ds))
    (hu : e.user = some u)
    (hmech : (name2mech ms == NAHMechType.NO_MECH) = false)
    (hdom : ciEq ds na.hostname = true) :
    ({ client := cs
       clienttype := none
       server := some (na.service ++ "@" ++ na.hostname)
       servertype := none
       mech := name2mech ms
       flags := 1
       post := PostAdd.pnone } : AddCall) ∈ userSelectionCalls env na ∧
    flagSet 1 FORCE_ADD = false := by
  refine ⟨?_, by decide⟩
  unfold userSelectionCalls
  rw [harr]
  apply List.mem_filterMap.mpr
  refine ⟨PrefItem.dict e, hmem, ?_⟩
  show userSelectionEntryCall na e = some _
  unfold userSelectionEntryCall
  rw [hc, hm, hd, hu]
  simp only [strOfOpt, Option.isNone_some, Bool.false_and, Bool.not_true,
    hdom, hmech, if_false, Bool.false_eq_true, Bool.not_false]

/-- Witness for the amended C3 at a concrete input. -/
theorem C3_user_selection_amended_witness :
    ({ client := "carol"
       clienttype := none
       server := some ("afpserver" ++ "@" ++ "host.example.com")
       servertype := none
       mech := name2mech "Kerberos"
       flags := 1
       post := PostAdd.pnone } : AddCall) ∈ userSelectionCalls envC3w naC3w ∧
    flagSet 1 FORCE_ADD = false :=
  C3_user_selection_amended envC3w naC3w [PrefItem.dict entryC3w] entryC3w
    "carol" "Kerberos" "HOST.example.com" (PrefVal.str "carol")
    rfl (by decide) rfl rfl rfl rfl (by decide) (by decide)

/-! ### Claim C6 -/

theorem useExistingCalls_mech {env : Env} {na : NASession} {only : Bool}
    {fl : Nat} {c : AddCall} (hc : c ∈ useExistingCalls env na only fl) :
    c.mech = NAHMechType.GSS_KERBEROS := by
  unfold useExistingCalls at hc
  rcases List.mem_filterMap.mp hc with ⟨cc, -, hcc⟩
  split at hcc
  · cases hcc
  · split at hcc
    · cases hcc
    · split at hcc
      · split at hcc
        · cases hcc
        · split at hcc
          · injection hcc with h4
            rw [← h4]
          · cases hcc
      · injection hcc with h4
        rw [← h4]

theorem wellknownLkdcCalls_mech {na : NASession} {mechtype : NAHMechType}
    {fl : Nat} {c : AddCall} (hc : c ∈ wellknownLkdcCalls na mechtype fl) :
    c.mech = mechtype := by
  unfold wellknownLkdcCalls at hc
  rcases List.mem_append.mp hc with h | h
  · by_cases hpw : na.password.isSome = true
    · rw [if_pos hpw] at h
      rw [List.mem_singleton.mp h]
    · rw [if_neg hpw] at h; cases h
  · rcases List.mem_filterMap.mp h with ⟨cert, -, hcert⟩
    cases hk : cert.kerberosPrincipal with
    | some csstr =>
      rw [hk] at hcert
      injection hcert with h4
      rw [← h4]
    | none =>
      rw [hk] at hcert
      cases ha : cert.appleID with
      | some str =>
        rw [ha] at hcert
        injection hcert with h4
        rw [← h4]
      | none => rw [ha] at hcert; cases hcert

theorem addRealmsCalls_mech {na : NASession} {realms : List String}
    {fl : Nat} {c : AddCall} (hc : c ∈ addRealmsCalls na realms fl) :
    c.mech = NAHMechType.GSS_KERBEROS := by
  unfold addRealmsCalls at hc
  rcases List.mem_map.mp hc with ⟨r, -, hr⟩
  rw [← hr]

theorem classicKerberosCalls_mech {env : Env} {na : NASession} {fl : Nat}
    {c : AddCall} (hc : c ∈ classicKerberosCalls env na fl) :
    c.mech = NAHMechType.GSS_KERBEROS := by
  unfold classicKerberosCalls at hc
  by_cases hl : isLocalHostname na.hostname = true
  · rw [if_pos hl] at hc; cases hc
  · rw [if_neg hl] at hc
    rcases List.mem_append.mp hc with h | h
    · rcases List.mem_append.mp h with h' | h'
      · rcases List.mem_append.mp h' with h'' | h''
        · by_cases hat : hasChar na.username '@' = true
          · rw [if_pos hat] at h''
            rw [List.mem_singleton.mp h'']
          · rw [if_neg hat] at h''; cases h''
        · by_cases hbs : hasChar na.username '\\' = true
          · rw [if_pos hbs] at h''
            rw [List.mem_singleton.mp h'']
          · rw [if_neg hbs] at h''; cases h''
      · exact addRealmsCalls_mech h'
    · exact addRealmsCalls_mech h

theorem classicLkdcCalls_mech {na : NASession} {fl : Nat} {c : AddCall}
    (hc : c ∈ classicLkdcCalls na fl) :
    c.mech = NAHMechType.GSS_KERBEROS := by
  unfold classicLkdcCalls at hc
  by_cases hl : isLocalHostname na.hostname = true
  · rw [if_pos hl] at hc
    rcases List.mem_append.mp hc with h | h
    · rcases List.mem_map.mp h with ⟨cert, -, hcert⟩
      rw [← hcert]
    · by_cases hpw : na.password.isSome = true
      · rw [if_pos hpw] at h
        rw [List.mem_singleton.mp h]
      · rw [if_neg hpw] at h; cases h
  · rw [if_neg hl] at hc; cases hc

theorem guessKerberosCalls_nothing {env : Env} {na : NASession}
    (h : (krbDecide env na).haveKerberos = false) :
    guessKerberosCalls env na = [] := by
  unfold guessKerberosCalls
  simp [h]

theorem mem_ite_nil {b : Bool} {X : List AddCall} {c : AddCall}
    (h : c ∈ (if b = true then X else [])) : c ∈ X := by
  cases b
  · simp at h
  · simpa using h

/-- No call of the Kerberos pipeline carries the NTLM mechanism. -/
theorem guessKerberosCalls_not_ntlm {env : Env} {na : NASession} {c : AddCall}
    (hc : c ∈ guessKerberosCalls env na) :
    c.mech ≠ NAHMechType.GSS_NTLM := by
  by_cases hk : (krbDecide env na).haveKerberos = true
  · rw [guessKerberosCalls_run env na hk] at hc
    rcases List.mem_append.mp hc with h | h
    · rcases List.mem_append.mp h with h' | h'
      · rcases List.mem_append.mp h' with h'' | h''
        · rcases List.mem_append.mp h'' with h3 | h3
          · rcases List.mem_append.mp h3 with h4 | h4
            · rw [useExistingCalls_mech h4]; intro hne; cases hne
            · rw [wellknownLkdcCalls_mech (mem_ite_nil h4)]
              intro hne; cases hne
          · rw [wellknownLkdcCalls_mech (mem_ite_nil h3)]
            intro hne; cases hne
        · rw [classicKerberosCalls_mech (mem_ite_nil h'')]
          intro hne; cases hne
      · rw [classicLkdcCalls_mech (mem_ite_nil h')]
        intro hne; cases hne
    · rw [useExistingCalls_mech h]; intro hne; cases hne
  · have hk' : (krbDecide env na).haveKerberos = false := by
      cases hv : (krbDecide env na).haveKerberos
      · rfl
      · exact absurd hv hk
    rw [guessKerberosCalls_nothing hk'] at hc
    cases hc

theorem guessNtlmCalls_no_hint {env : Env} {na : NASession}
    (h : haveMech na MechOID.NTLM = false) :
    guessNtlmCalls env na = [] := by
  unfold guessNtlmCalls
  simp [h]

/-- C6 (amended): `NAHCreate` produces NTLM selections outside the
user-selection override guesser only when no client certificates were
supplied, the service is CIFS or host, and the hints contain the NTLM
OID: under the claim's conditions (certificates supplied, or a
non-SMB service, or hints without the NTLM OID — including absent
hints) every `addSelection` call carrying the NTLM mechanism comes
from a `UserSelections` override entry.  The claim as stated fails
because such override entries can produce NTLM selections regardless of
certificates, service class and hints. -/
theorem C6_ntlm_gating_amended (env : Env) (na : NASession) (c : AddCall)
    (h : na.x509identities.isNone = false ∨ isSmb na = false ∨
         haveMech na MechOID.NTLM = false)
    (hc : c ∈ nahCalls env na) (hmech : c.mech = NAHMechType.GSS_NTLM) :
    c ∈ userSelectionCalls env na := by
  unfold nahCalls at hc
  rcases List.mem_append.mp hc with h1 | h2
  · rcases List.mem_append.mp h1 with hu | hk
    · exact hu
    · exact absurd hmech (guessKerberosCalls_not_ntlm hk)
  · exfalso
    rcases h with hcert | hsmb | hhint
    · rw [hcert] at h2
      simp at h2
    · rw [hsmb] at h2
      simp at h2
    · rw [guessNtlmCalls_no_hint hhint] at h2
      cases mem_ite_nil h2

/-- C6 counterexample: client certificates were supplied, the service is
neither CIFS nor host, and the hints are absent (so they contain no NTLM
OID) — the claim asserts no NTLM selection is produced — yet the
`UserSelections` override entry `entryC6` puts an NTLM selection in the
output list of `NAHCreate`. -/
theorem C6_counterexample :
    inputC6.certsInput = some (CertsInput.arr [certC6]) ∧
    inputC6.service = "afpserver" ∧
    inputC6.servermechs = none ∧
    (NAHCreateModel envC6 inputC6).map
      (fun l => l.any (fun s => s.mech == NAHMechType.GSS_NTLM)) = some true := by
  decide

/-- Witness for the amended C6 at a concrete input: with certificates
supplied, the only NTLM call of `NAHCreate` lies in the user-selection
override list. -/
theorem C6_ntlm_gating_amended_witness :
    ntlmOverrideCall ∈ userSelectionCalls envC6 naC6 :=
  C6_ntlm_gating_amended envC6 naC6 ntlmOverrideCall (Or.inl (by decide))
    (by decide) rfl

theorem exactMatch_congr {c : AddCall} {r r' : Selection}
    (h : selKey r = selKey r') : exactMatch c r = exactMatch c r' := by
  unfold selKey at h
  simp only [Prod.mk.injEq] at h
  obtain ⟨h1, h2, h3, h4⟩ := h
  unfold exactMatch
  rw [h1, h2, h3, h4]

theorem noneImpliesReferral_congr {r r' : Selection}
    (h : selKey r = selKey r') :
    noneImpliesReferral r = noneImpliesReferral r' := by
  unfold selKey at h
  simp only [Prod.mk.injEq] at h
  obtain ⟨-, -, h3, h4⟩ := h
  unfold noneImpliesReferral
  rw [h3, h4]

theorem any_updateAt {q : Selection → Bool} {f : Selection → Selection}
    (hf : ∀ x, q (f x) = q x) :
    ∀ (l : List Selection) (i : Nat), (updateAt l i f).any q = l.any q := by
  intro l
  induction l with
  | nil => intro i; rfl
  | cons s rest ih =>
    intro i
    cases i with
    | zero =>
      simp only [updateAt, List.get?_cons_zero, List.set_cons_zero,
        List.any_cons, hf]
    | succ j =>
      simp only [updateAt, List.get?_cons_succ, List.set_cons_succ]
      cases hj : rest.get? j with
      | none => simp
      | some t =>
        simp only [List.any_cons]
        have := ih j
        simp only [updateAt, hj] at this
        rw [this]

theorem findDupIdx_exists_mem {p : Selection → Bool} :
    ∀ {l : List Selection} {i : Nat}, findDupIdx p l = some i →
      ∃ r ∈ l, p r = true := by
  intro l
  induction l with
  | nil => intro i h; cases h
  | cons s rest ih =>
    intro i h
    unfold findDupIdx at h
    cases hs : p s with
    | true => exact ⟨s, by simp, hs⟩
    | false =>
      rw [if_neg (by simp [hs])] at h
      cases hrest : findDupIdx p rest with
      | none => rw [hrest] at h; cases h
      | some j =>
        obtain ⟨r, hr1, hr2⟩ := ih hrest
        exact ⟨r, by simp [hr1], hr2⟩

theorem runStep_any_preserved {P : Selection → Bool}
    (hsel : ∀ r r', selKey r = selKey r' → P r = P r')
    (spec : Option String) (sels : List Selection) (c : AddCall)
    (h : sels.any P = true) :
    (runStep spec sels c).any P = true := by
  have hup : ∀ (f : Selection → Selection), (∀ x, selKey (f x) = selKey x) →
      ∀ (l : List Selection) (i : Nat), l.any P = true →
        (updateAt l i f).any P = true := by
    intro f hf l i hl
    rw [any_updateAt (fun x => hsel _ _ (hf x)) l i]
    exact hl
  by_cases hm : matchingOK spec c = false
  · unfold runStep
    rw [addSelection_filtered hm]
    exact h
  · have hm' : matchingOK spec c = true := by
      cases hmv : matchingOK spec c
      · exact absurd hmv hm
      · rfl
    have happ : (sels ++ [mkNewSel c]).any P = true := by
      rw [List.any_append, h]
      rfl
    cases hd : findDupIdx (dupPred c) sels with
    | some i =>
      unfold runStep
      rw [addSelection_dup hm' hd]
      cases c.post with
      | pnone => exact h
      | bindCache cc => exact hup _ (bindCacheFn_key cc) sels i h
      | markHaveCred =>
        exact hup (fun s => { s with have_cred := true }) (fun x => rfl) sels i h
      | attachCert cert =>
        exact hup (fun s => { s with certificate := some cert }) (fun x => rfl) sels i h
      | attachCertIfNew cert => exact h
    | none =>
      unfold runStep
      rw [addSelection_added hm' hd]
      cases c.post with
      | pnone => exact happ
      | bindCache cc => exact hup _ (bindCacheFn_key cc) _ _ happ
      | markHaveCred =>
        exact hup (fun s => { s with have_cred := true }) (fun x => rfl) _ _ happ
      | attachCert cert =>
        exact hup (fun s => { s with certificate := some cert }) (fun x => rfl) _ _ happ
      | attachCertIfNew cert =>
        exact hup (fun s => { s with certificate := some cert }) (fun x => rfl) _ _ happ

theorem foldl_any_preserved {P : Selection → Bool}
    (hsel : ∀ r r', selKey r = selKey r' → P r = P r')
    (spec : Option String) :
    ∀ (calls : List AddCall) (sels : List Selection), sels.any P = true →
      (calls.foldl (runStep spec) sels).any P = true := by
  intro calls
  induction calls with
  | nil => intro sels h; exact h
  | cons c rest ih =>
    intro sels h
    exact ih (runStep spec sels c) (runStep_any_preserved hsel spec sels c h)

theorem runStep_allNoneOK (spec : Option String) (sels : List Selection)
    (c : AddCall) (hc : callNoneOK c = true)
    (h : sels.all noneImpliesReferral = true) :
    (runStep spec sels c).all noneImpliesReferral = true := by
  have hup : ∀ (f : Selection → Selection), (∀ x, selKey (f x) = selKey x) →
      ∀ (l : List Selection) (i : Nat), l.all noneImpliesReferral = true →
        (updateAt l i f).all noneImpliesReferral = true := by
    intro f hf l i hl
    rw [all_updateAt (fun x => noneImpliesReferral_congr (hf x)) l i]
    exact hl
  by_cases hm : matchingOK spec c = false
  · unfold runStep
    rw [addSelection_filtered hm]
    exact h
  · have hm' : matchingOK spec c = true := by
      cases hmv : matchingOK spec c
      · exact absurd hmv hm
      · rfl
    have happ : (sels ++ [mkNewSel c]).all noneImpliesReferral = true := by
      rw [List.all_append, h, Bool.true_and, List.all_cons, List.all_nil,
        Bool.and_true]
      exact hc
    cases hd : findDupIdx (dupPred c) sels with
    | some i =>
      unfold runStep
      rw [addSelection_dup hm' hd]
      cases c.post with
      | pnone => exact h
      | bindCache cc => exact hup _ (bindCacheFn_key cc) sels i h
      | markHaveCred =>
        exact hup (fun s => { s with have_cred := true }) (fun x => rfl) sels i h
      | attachCert cert =>
        exact hup (fun s => { s with certificate := some cert }) (fun x => rfl) sels i h
      | attachCertIfNew cert => exact h
    | none =>
      unfold runStep
      rw [addSelection_added hm' hd]
      cases c.post with
      | pnone => exact happ
      | bindCache cc => exact hup _ (bindCacheFn_key cc) _ _ happ
      | markHaveCred =>
        exact hup (fun s => { s with have_cred := true }) (fun x => rfl) _ _ happ
      | attachCert cert =>
        exact hup (fun s => { s with certificate := some cert }) (fun x => rfl) _ _ happ
      | attachCertIfNew cert =>
        exact hup (fun s => { s with certificate := some cert }) (fun x => rfl) _ _ happ

theorem exactMatch_mkNewSel (c : AddCall) : exactMatch c (mkNewSel c) = true := by
  simp [exactMatch, mkNewSel]

theorem exactMatch_of_dup {c : AddCall} {r : Selection} {s : String}
    (hdup : dupPred c r = true)
    (hnone : noneImpliesReferral r = true)
    (hs : c.server = some s)
    (hst : (c.servertype.getD NameType.NTServiceBasedName ==
            NameType.NTKRB5PrincipalReferral) = false) :
    exactMatch c r = true := by
  unfold dupPred dupKey at hdup
  simp only [Bool.and_eq_true] at hdup
  obtain ⟨⟨⟨h1, h2⟩, h3⟩, h4⟩ := hdup
  have hst' : r.servertype = c.servertype.getD NameType.NTServiceBasedName :=
    eq_of_beq h4
  cases hr : r.server with
  | none =>
    unfold noneImpliesReferral at hnone
    rw [hr, hst'] at hnone
    have hnone' : (c.servertype.getD NameType.NTServiceBasedName ==
        NameType.NTKRB5PrincipalReferral) = true := hnone
    rw [hnone'] at hst
    cases hst
  | some x =>
    rw [hr, hs] at h3
    unfold exactMatch
    simp only [Bool.and_eq_true]
    refine ⟨⟨⟨h1, h2⟩, ?_⟩, h4⟩
    rw [hr, hs]
    exact h3

theorem runStep_creates (spec : Option String) (sels : List Selection)
    (c : AddCall) (hm : matchingOK spec c = true)
    (hinv : sels.all noneImpliesReferral = true)
    (hsrv : c.server.isSome = true)
    (hst : (c.servertype.getD NameType.NTServiceBasedName ==
            NameType.NTKRB5PrincipalReferral) = false) :
    (runStep spec sels c).any (exactMatch c) = true := by
  obtain ⟨s, hs⟩ := Option.isSome_iff_exists.mp hsrv
  have hE : ∀ r r', selKey r = selKey r' → exactMatch c r = exactMatch c r' :=
    fun r r' h => exactMatch_congr h
  cases hd : findDupIdx (dupPred c) sels with
  | some i =>
    obtain ⟨r, hrmem, hrp⟩ := findDupIdx_exists_mem hd
    have hrn : noneImpliesReferral r = true := by
      have := List.all_eq_true.mp hinv r hrmem
      exact this
    have hany : sels.any (exactMatch c) = true :=
      List.any_eq_true.mpr ⟨r, hrmem, exactMatch_of_dup hrp hrn hs hst⟩
    exact runStep_any_preserved hE spec sels c hany
  | none =>
    have hup : ∀ (f : Selection → Selection), (∀ x, selKey (f x) = selKey x) →
        ∀ (l : List Selection) (i : Nat), l.any (exactMatch c) = true →
          (updateAt l i f).any (exactMatch c) = true := by
      intro f hf l i hl
      rw [any_updateAt (fun x => hE _ _ (hf x)) l i]
      exact hl
    have happ : (sels ++ [mkNewSel c]).any (exactMatch c) = true := by
      rw [List.any_append, List.any_cons, List.any_nil, exactMatch_mkNewSel]
      simp
    unfold runStep
    rw [addSelection_added hm hd]
    cases c.post with
    | pnone => exact happ
    | bindCache cc => exact hup _ (bindCacheFn_key cc) _ _ happ
    | markHaveCred =>
      exact hup (fun s => { s with have_cred := true }) (fun x => rfl) _ _ happ
    | attachCert cert =>
      exact hup (fun s => { s with certificate := some cert }) (fun x => rfl) _ _ happ
    | attachCertIfNew cert =>
      exact hup (fun s => { s with certificate := some cert }) (fun x => rfl) _ _ happ

theorem calls_create (spec : Option String) :
    ∀ (calls : List AddCall) (sels : List Selection) (c : AddCall),
      c ∈ calls → matchingOK spec c = true →
      (∀ x ∈ calls, callNoneOK x = true) →
      c.server.isSome = true →
      (c.servertype.getD NameType.NTServiceBasedName ==
        NameType.NTKRB5PrincipalReferral) = false →
      sels.all noneImpliesReferral = true →
      ((calls.foldl (runStep spec) sels).any (exactMatch c)) = true := by
  intro calls
  induction calls with
  | nil => intro sels c hc; cases hc
  | cons c0 rest ih =>
    intro sels c hc hm hall hsrv hstn hinv
    simp only [List.foldl_cons]
    rcases List.mem_cons.mp hc with rfl | hc'
    · have hcreated : (runStep spec sels c).any (exactMatch c) = true :=
        runStep_creates spec sels c hm hinv hsrv hstn
      exact foldl_any_preserved (fun r r' h => exactMatch_congr h) spec rest _ hcreated
    · have hinv' : (runStep spec sels c0).all noneImpliesReferral = true :=
        runStep_allNoneOK spec sels c0 (hall c0 (by simp)) hinv
      exact ih (runStep spec sels c0) c hc' hm
        (fun x hx => hall x (by simp [hx])) hsrv hstn hinv'

theorem userSelectionCalls_noneOK {env : Env} {na : NASession} {c : AddCall}
    (hc : c ∈ userSelectionCalls env na) : callNoneOK c = true := by
  unfold userSelectionCalls at hc
  split at hc
  · cases hc
  · rcases List.mem_filterMap.mp hc with ⟨it, -, hit⟩
    cases it with
    | other => cases hit
    | dict e =>
      have hit' : userSelectionEntryCall na e = some c := hit
      unfold userSelectionEntryCall at hit'
      split at hit'
      · split at hit'
        · cases hit'
        · split at hit'
          · cases hit'
          · split at hit'
            · cases hit'
            · split at hit'
              · cases hit'
              · injection hit' with h4
                rw [← h4]
                rfl
      · cases hit'

theorem useExistingCalls_noneOK {env : Env} {na : NASession} {only : Bool}
    {fl : Nat} {c : AddCall} (hc : c ∈ useExistingCalls env na only fl) :
    callNoneOK c = true := by
  unfold useExistingCalls at hc
  rcases List.mem_filterMap.mp hc with ⟨cc, -, hcc⟩
  split at hcc
  · cases hcc
  · split at hcc
    · cases hcc
    · split at hcc
      · split at hcc
        · cases hcc
        · split at hcc
          · injection hcc with h4
            rw [← h4]
            rfl
          · cases hcc
      · injection hcc with h4
        rw [← h4]
        rfl

theorem wellknownLkdcCalls_noneOK {na : NASession} {mechtype : NAHMechType}
    {fl : Nat} {c : AddCall} (hc : c ∈ wellknownLkdcCalls na mechtype fl) :
    callNoneOK c = true := by
  unfold wellknownLkdcCalls at hc
  rcases List.mem_append.mp hc with h | h
  · by_cases hpw : na.password.isSome = true
    · rw [if_pos hpw] at h
      rw [List.mem_singleton.mp h]
      rfl
    · rw [if_neg hpw] at h; cases h
  · rcases List.mem_filterMap.mp h with ⟨cert, -, hcert⟩
    cases hk : cert.kerberosPrincipal with
    | some csstr =>
      rw [hk] at hcert
      injection hcert with h4
      rw [← h4]
      rfl
    | none =>
      rw [hk] at hcert
      cases ha : cert.appleID with
      | some str =>
        rw [ha] at hcert
        injection hcert with h4
        rw [← h4]
        rfl
      | none => rw [ha] at hcert; cases hcert

theorem addRealmsCalls_noneOK {na : NASession} {realms : List String}
    {fl : Nat} {c : AddCall} (hc : c ∈ addRealmsCalls na realms fl) :
    callNoneOK c = true := by
  unfold addRealmsCalls at hc
  rcases List.mem_map.mp hc with ⟨r, -, hr⟩
  rw [← hr]
  rfl

theorem classicKerberosCalls_noneOK {env : Env} {na : NASession} {fl : Nat}
    {c : AddCall} (hc : c ∈ classicKerberosCalls env na fl) :
    callNoneOK c = true := by
  unfold classicKerberosCalls at hc
  by_cases hl : isLocalHostname na.hostname = true
  · rw [if_pos hl] at hc; cases hc
  · rw [if_neg hl] at hc
    rcases List.mem_append.mp hc with h | h
    · rcases List.mem_append.mp h with h' | h'
      · rcases List.mem_append.mp h' with h'' | h''
        · by_cases hat : hasChar na.username '@' = true
          · rw [if_pos hat] at h''
            rw [List.mem_singleton.mp h'']
            rfl
          · rw [if_neg hat] at h''; cases h''
        · by_cases hbs : hasChar na.username '\\' = true
          · rw [if_pos hbs] at h''
            rw [List.mem_singleton.mp h'']
            rfl
          · rw [if_neg hbs] at h''; cases h''
      · exact addRealmsCalls_noneOK h'
    · exact addRealmsCalls_noneOK h

theorem classicLkdcCalls_noneOK {na : NASession} {fl : Nat} {c : AddCall}
    (hc : c ∈ classicLkdcCalls na fl) : callNoneOK c = true := by
  unfold classicLkdcCalls at hc
  by_cases hl : isLocalHostname na.hostname = true
  · rw [if_pos hl] at hc
    rcases List.mem_append.mp hc with h | h
    · rcases List.mem_map.mp h with ⟨cert, -, hcert⟩
      rw [← hcert]
      rfl
    · by_cases hpw : na.password.isSome = true
      · rw [if_pos hpw] at h
        rw [List.mem_singleton.mp h]
        rfl
      · rw [if_neg hpw] at h; cases h
  · rw [if_neg hl] at hc; cases hc

theorem guessKerberosCalls_noneOK {env : Env} {na : NASession} {c : AddCall}
    (hc : c ∈ guessKerberosCalls env na) : callNoneOK c = true := by
  by_cases hk : (krbDecide env na).haveKerberos = true
  · rw [guessKerberosCalls_run env na hk] at hc
    rcases List.mem_append.mp hc with h | h
    · rcases List.mem_append.mp h with h' | h'
      · rcases List.mem_append.mp h' with h'' | h''
        · rcases List.mem_append.mp h'' with h3 | h3
          · rcases List.mem_append.mp h3 with h4 | h4
            · exact useExistingCalls_noneOK h4
            · exact wellknownLkdcCalls_noneOK (mem_ite_nil h4)
          · exact wellknownLkdcCalls_noneOK (mem_ite_nil h3)
        · exact classicKerberosCalls_noneOK (mem_ite_nil h'')
      · exact classicLkdcCalls_noneOK (mem_ite_nil h')
    · exact useExistingCalls_noneOK h
  · have hk' : (krbDecide env na).haveKerberos = false := by
      cases hv : (krbDecide env na).haveKerberos
      · rfl
      · exact absurd hv hk
    rw [guessKerberosCalls_nothing hk'] at hc
    cases hc

theorem guessNtlmCalls_noneOK {env : Env} {na : NASession} {c : AddCall}
    (hc : c ∈ guessNtlmCalls env na) : callNoneOK c = true := by
  unfold guessNtlmCalls at hc
  split at hc
  · cases hc
  · rcases List.mem_append.mp hc with h | h
    · have h' := mem_ite_nil h
      rcases List.mem_append.mp h' with h1 | h1
      · split at h1
        · rw [List.mem_singleton.mp h1]
          rfl
        · split at h1
          · rw [List.mem_singleton.mp h1]
            rfl
          · rw [List.mem_singleton.mp h1]
            rfl
      · split at h1
        · rw [List.mem_singleton.mp h1]
          rfl
        · cases h1
    · rcases List.mem_map.mp h with ⟨nm, -, hnm⟩
      rw [← hnm]
      rfl

/-- Every `addSelection` call `NAHCreate` makes either carries a
resolved server or the KRB5PrincipalReferral server-name-type: the only
NULL-server calls are those of `classic_lkdc`. -/
theorem nahCalls_noneOK (env : Env) (na : NASession) :
    ∀ c ∈ nahCalls env na, callNoneOK c = true := by
  intro c hc
  unfold nahCalls at hc
  rcases List.mem_append.mp hc with h1 | h2
  · rcases List.mem_append.mp h1 with hu | hk
    · exact userSelectionCalls_noneOK hu
    · exact guessKerberosCalls_noneOK hk
  · exact guessNtlmCalls_noneOK (mem_ite_nil h2)

/-- The flag word `guess_kerberos` passes to every guesser never has
`FORCE_ADD` set: it is `USE_SPNEGO` or 0 (na.c lines 987 and 1031). -/
theorem krbDecide_no_force (env : Env) (na : NASession) :
    flagSet (krbDecide env na).flags FORCE_ADD = false := by
  have hproj : (krbDecide env na).flags =
      if (na.service == "afpserver" && !(haveMech na MechOID.AppleLKDC)) = true
      then 0 else USE_SPNEGO := rfl
  rw [hproj]
  by_cases h : (na.service == "afpserver" && !(haveMech na MechOID.AppleLKDC)) = true
  · rw [if_pos h]
    decide
  · rw [if_neg h]
    decide

theorem matchingOK_wkUserCall (na : NASession) (mechtype : NAHMechType)
    (fl : Nat) (hff : flagSet fl FORCE_ADD = false)
    (hfil : wkFilterOK na = true) :
    matchingOK na.specificname (wkUserCall na mechtype fl) = true := by
  unfold wkFilterOK at hfil
  unfold matchingOK
  show (flagSet fl FORCE_ADD ||
    (match na.specificname with
     | none => true
     | some sn => strStarts (na.username ++ "@" ++ wellknownLKDC) sn)) = true
  rw [hff, Bool.false_or]
  exact hfil

/-- C4 (amended): whenever the Kerberos pipeline runs (`have_kerberos`),
a password is present, and the wellknown client
`<username>@WELLKNOWN:COM.APPLE.LKDC` passes the specific-name filter
(no specific-name, or the client begins with it — `wellknown_lkdc`
passes no `FORCE_ADD`), the selection list `NAHCreate` produces
contains a selection with exactly that client, server
`<service>/localhost@WELLKNOWN:COM.APPLE.LKDC` and server-name-type
KRB5Principal (the fields compared by `exactMatch` against
`wkUserCall`) — with mechanism IAKERB when `try_iakerb_with_lkdc` is
set and Kerberos when `try_wlkdc` is set. -/
theorem C4_wellknown_lkdc_amended (env : Env) (na : NASession) (pw : String)
    (hk : (krbDecide env na).haveKerberos = true)
    (hpw : na.password = some pw)
    (hfil : wkFilterOK na = true) :
    ((krbDecide env na).tryIakerbWithLkdc = true →
      (runPipeline na.specificname (nahCalls env na)).any
        (exactMatch (wkUserCall na NAHMechType.GSS_KERBEROS_IAKERB
          (krbDecide env na).flags)) = true) ∧
    ((krbDecide env na).tryWlkdc = true →
      (runPipeline na.specificname (nahCalls env na)).any
        (exactMatch (wkUserCall na NAHMechType.GSS_KERBEROS
          (krbDecide env na).flags)) = true) := by
  have hmemp := wkUserCall_mem_pipeline env na pw hk hpw
  have hmatch : ∀ m : NAHMechType,
      matchingOK na.specificname (wkUserCall na m (krbDecide env na).flags) = true :=
    fun m => matchingOK_wkUserCall na m _ (krbDecide_no_force env na) hfil
  constructor
  · intro hi
    have hmem : wkUserCall na NAHMechType.GSS_KERBEROS_IAKERB
        (krbDecide env na).flags ∈ nahCalls env na := by
      unfold nahCalls
      exact List.mem_append_left _ (List.mem_append_right _ (hmemp.1 hi))
    exact calls_create na.specificname (nahCalls env na) [] _ hmem
      (hmatch NAHMechType.GSS_KERBEROS_IAKERB) (nahCalls_noneOK env na)
      rfl rfl rfl
  · intro hw
    have hmem : wkUserCall na NAHMechType.GSS_KERBEROS
        (krbDecide env na).flags ∈ nahCalls env na := by
      unfold nahCalls
      exact List.mem_append_left _ (List.mem_append_right _ (hmemp.2 hw))
    exact calls_create na.specificname (nahCalls env na) [] _ hmem
      (hmatch NAHMechType.GSS_KERBEROS) (nahCalls_noneOK env na)
      rfl rfl rfl

/-- Witness for the amended C4 at a concrete input: with a PKU2U hint, a
password and specific-name `alice`, the selection list produced by the
pipeline contains the wellknown-LKDC Kerberos selection. -/
theorem C4_wellknown_lkdc_amended_witness :
    (runPipeline naC4w.specificname (nahCalls envEmpty naC4w)).any
      (exactMatch (wkUserCall naC4w NAHMechType.GSS_KERBEROS
        (krbDecide envEmpty naC4w).flags)) = true :=
  (C4_wellknown_lkdc_amended envEmpty naC4w "p" (by decide) rfl (by decide)).2
    (by decide)
